import Mathlib

/-!
# aliyun-ddns-cli: the record reconciler of `main.go`

A shallow embedding of `src/main.go`.  The DNS provider client (package `alidns`), the
live-DNS lookup `getDNS`, `splitDomain`, `getIP`, `getIP6` and `ip2locCN` are not part of
`main.go`; they are taken as parameters (`Env`, `Host`) acting on an abstract world state `σ`.
Every embedded function returns its result, the world state it leaves, and the list of outside
calls it made, each with the answer it received, in the order of the calls.

## Contents

Definitions come first: the data model, `ListRecord`, `DelRecord`, `UpdateRecord`, `AddRecord`
and `CheckAndUpdateRecord`, the vocabulary for traces, an in-memory provider that behaves
faithfully, the Go library functions that `appInit` and the `auto-update` action use, those two
functions, and the concrete providers of the examples.  The theorems follow: the page loop of
`ListRecord`, one call of `CheckAndUpdateRecord` over any provider, reconciliation against the
faithful provider, the recursion on `DomainRecordDuplicate`, the credentials `appInit` picks
and the `--redo` check.
-/

namespace AliDDNS

/-! ## Data model -/

/-- The fields of `dns.RecordTypeNew` that `main.go` reads. -/
structure RecordTypeNew where
  DomainName : String
  RecordId : String
  RR : String
  Type_ : String
  Value : String
deriving DecidableEq, Repr, Inhabited

/-- A Go `error` value, kept by its message (`err.Error()`); `none` is `nil`. -/
abbrev GoError := Option String

/-- What `DescribeDomainRecordsNew` answers: the page (`resp.DomainRecords.Record`) with
`resp.PaginationResult.TotalCount`, or an error. -/
inductive DescribeResponse where
  | ok (records : List RecordTypeNew) (totalCount : Int)
  | error (msg : String)
deriving DecidableEq, Repr

/-- One outside call together with the answer it got. -/
inductive Event where
  | getDNS (fulldomain : String) (ipv6 : Bool) (answer : String)
  | describeDomainRecordsNew (domainName : String) (pageNumber pageSize : Nat)
      (resp : DescribeResponse)
  | deleteDomainRecord (recordId : String) (err : GoError)
  | updateDomainRecord (recordId rr value type_ : String) (err : GoError)
  | addDomainRecord (domainName rr type_ value : String) (err : GoError)
  | getIP (answer : String)
  | getIP6 (answer : String)
  | ip2locCN (ip : String)
  | randIntn (n : Int) (result : Int)
  | sleep (nanoseconds : Int)
deriving DecidableEq, Repr

/-- The collaborators of the reconciler that live outside `main.go`, over a world state `σ`:
`splitDomain` and `getDNS` (other files of the repository) and the four calls of `dns.Client`.
The methods of `AccessKey` are embedded for a receiver whose `getClient()` is not nil, which
`appInit` checks before any command runs. -/
structure Env (σ : Type) where
  splitDomain : String → String × String
  getDNS : String → Bool → σ → String × σ
  DescribeDomainRecordsNew : String → Nat → Nat → σ → DescribeResponse × σ
  DeleteDomainRecord : String → σ → GoError × σ
  UpdateDomainRecord : String → String → String → String → σ → GoError × σ
  AddDomainRecord : String → String → String → String → σ → GoError × σ

/-! ## Strings -/

/-- Go `strings.Count(s, c)` for a one-character `c`. -/
def stringsCount (s : String) (c : Char) : Nat := s.data.count c

/-- Go `strings.Contains(s, substr)`. -/
def stringsContains (s substr : String) : Bool :=
  s.data.tails.any (fun t => substr.data.isPrefixOf t)

/-! ## `ListRecord` (lines 43-63) -/

/-- The domain `ListRecord` asks the provider for (lines 44-46). -/
def listDomain {σ : Type} (env : Env σ) (domain : String) : String :=
  if stringsCount domain '.' ≠ 1 then (env.splitDomain domain).2 else domain

/-- The `for idx := 1; idx <= 99; idx++` loop of `ListRecord`, with `n` iterations left, at page
`idx`, having accumulated `dnsRecords`.  Returns `(dnsRecords, err)`. -/
def ListRecord.loop {σ : Type} (env : Env σ) (domain : String) :
    Nat → Nat → List RecordTypeNew → σ → (List RecordTypeNew × GoError) × σ × List Event
  | 0, _, dnsRecords, s => ((dnsRecords, none), s, [])
  | n + 1, idx, dnsRecords, s =>
    match env.DescribeDomainRecordsNew domain idx 50 s with
    | (DescribeResponse.error msg, s1) =>
      ((dnsRecords, some msg), s1,
        [Event.describeDomainRecordsNew domain idx 50 (DescribeResponse.error msg)])
    | (DescribeResponse.ok page total, s1) =>
      if ((dnsRecords ++ page).length : Int) ≥ total then
        ((dnsRecords ++ page, none), s1,
          [Event.describeDomainRecordsNew domain idx 50 (DescribeResponse.ok page total)])
      else
        let rest := ListRecord.loop env domain n (idx + 1) (dnsRecords ++ page) s1
        (rest.1, rest.2.1,
          Event.describeDomainRecordsNew domain idx 50 (DescribeResponse.ok page total)
            :: rest.2.2)

/-- The method `(ak *AccessKey) ListRecord(domain)` (lines 43-63). -/
def ListRecord {σ : Type} (env : Env σ) (domain : String) (s : σ) :
    (List RecordTypeNew × GoError) × σ × List Event :=
  ListRecord.loop env (listDomain env domain) 99 1 [] s

/-! ## `DelRecord` (lines 65-82) -/

/-- The `for i := range dnsRecords` loop of `DelRecord`: one `DeleteDomainRecord` per record
whose `RR` is `rr`; the error of a delete is assigned to the shadowed `err` and dropped. -/
def DelRecord.loop {σ : Type} (env : Env σ) (rr : String) :
    List RecordTypeNew → σ → σ × List Event
  | [], s => (s, [])
  | r :: rs, s =>
    if r.RR = rr then
      let d := env.DeleteDomainRecord r.RecordId s
      let rest := DelRecord.loop env rr rs d.2
      (rest.1, Event.deleteDomainRecord r.RecordId d.1 :: rest.2)
    else DelRecord.loop env rr rs s

/-- The method `(ak *AccessKey) DelRecord(rr, domain)`: it returns the listing error when
listing fails, else nil. -/
def DelRecord {σ : Type} (env : Env σ) (rr domain : String) (s : σ) :
    GoError × σ × List Event :=
  match ListRecord env domain s with
  | ((_, some e), s1, t1) => (some e, s1, t1)
  | ((dnsRecords, none), s1, t1) =>
    let d := DelRecord.loop env rr dnsRecords s1
    (none, d.1, t1 ++ d.2)

/-! ## `UpdateRecord`, `AddRecord` (lines 84-104) -/

/-- The method `(ak *AccessKey) UpdateRecord(recordID, rr, dmType, value)`. -/
def UpdateRecord {σ : Type} (env : Env σ) (recordID rr dmType value : String) (s : σ) :
    GoError × σ × List Event :=
  let u := env.UpdateDomainRecord recordID rr value dmType s
  (u.1, u.2, [Event.updateDomainRecord recordID rr value dmType u.1])

/-- The method `(ak *AccessKey) AddRecord(domain, rr, dmType, value)`. -/
def AddRecord {σ : Type} (env : Env σ) (domain rr dmType value : String) (s : σ) :
    GoError × σ × List Event :=
  let a := env.AddDomainRecord domain rr dmType value s
  (a.1, a.2, [Event.addDomainRecord domain rr dmType value a.1])

/-! ## `CheckAndUpdateRecord` (lines 106-146) -/

/-- The loop of lines 118-123 from `(target, targetCnt)`: `target` ends as the last record with
`RR == rr && Type == recordType`, `targetCnt` counts them. -/
def findTarget (rr recordType : String) :
    List RecordTypeNew → Option RecordTypeNew × Nat → Option RecordTypeNew × Nat
  | [], acc => acc
  | r :: rs, acc =>
    if r.RR = rr ∧ r.Type_ = recordType then findTarget rr recordType rs (some r, acc.2 + 1)
    else findTarget rr recordType rs acc

/-- Lines 133-140.  `Sum.inl e` is the `return fmt.Errorf(...)` of line 137; `Sum.inr err` is
the value of `err` on reaching line 141. -/
def writeRecord {σ : Type} (env : Env σ) (domain rr recordType ipaddr : String)
    (target : Option RecordTypeNew) (s : σ) : (GoError ⊕ GoError) × σ × List Event :=
  match target with
  | none =>
    let a := AddRecord env domain rr recordType ipaddr s
    (Sum.inr a.1, a.2.1, a.2.2)
  | some tg =>
    if tg.Value ≠ ipaddr then
      if tg.Type_ ≠ recordType then
        (Sum.inl (some ("record type error! oldType=" ++ tg.Type_ ++ ", targetType="
          ++ recordType)), s, [])
      else
        let u := UpdateRecord env tg.RecordId tg.RR tg.Type_ ipaddr s
        (Sum.inr u.1, u.2.1, u.2.2)
    else (Sum.inr none, s, [])

/-- Lines 128-131: with more than one target, `DelRecord` (result ignored) and `target = nil`. -/
def dropDuplicates {σ : Type} (env : Env σ) (rr domain : String)
    (found : Option RecordTypeNew × Nat) (s : σ) : Option RecordTypeNew × σ × List Event :=
  if found.2 > 1 then
    let d := DelRecord env rr domain s
    (none, d.2.1, d.2.2)
  else (found.1, s, [])

/-- The record type `CheckAndUpdateRecord` asks for (lines 111-114). -/
def recordTypeOf (ipv6 : Bool) : String := if ipv6 then "AAAA" else "A"

/-- Lines 107-140 of `CheckAndUpdateRecord`: one pass up to the duplicate test of line 141.
`Sum.inl e` is a `return` taken before line 141, `Sum.inr err` the `err` that reaches it. -/
def reconcileOnce {σ : Type} (env : Env σ) (rr domain ipaddr : String) (ipv6 : Bool) (s : σ) :
    (GoError ⊕ GoError) × σ × List Event :=
  let fulldomain := rr ++ "." ++ domain
  let q := env.getDNS fulldomain ipv6 s
  if q.1 = ipaddr then (Sum.inl none, q.2, [Event.getDNS fulldomain ipv6 q.1])
  else
    let recordType := recordTypeOf ipv6
    match ListRecord env domain q.2 with
    | ((_, some e), s1, t1) => (Sum.inl (some e), s1, Event.getDNS fulldomain ipv6 q.1 :: t1)
    | ((dnsRecords, none), s1, t1) =>
      let d := dropDuplicates env rr domain (findTarget rr recordType dnsRecords (none, 0)) s1
      let w := writeRecord env domain rr recordType ipaddr d.1 d.2.1
      (w.1, w.2.1, Event.getDNS fulldomain ipv6 q.1 :: (t1 ++ d.2.2 ++ w.2.2))

/-- The test of line 141: `err != nil && strings.Contains(err.Error(), "DomainRecordDuplicate")`. -/
def isDuplicate (err : GoError) : Bool :=
  match err with
  | none => false
  | some msg => stringsContains msg "DomainRecordDuplicate"

/-- The method `(ak *AccessKey) CheckAndUpdateRecord(rr, domain, ipaddr, ipv6)`.  It calls
itself with no bound; `fuel` bounds the number of activations, and the result is `none` when
the recursion has not returned within `fuel` activations. -/
def CheckAndUpdateRecord {σ : Type} (env : Env σ) :
    Nat → String → String → String → Bool → σ → Option GoError × σ × List Event
  | 0, _, _, _, _, s => (none, s, [])
  | fuel + 1, rr, domain, ipaddr, ipv6, s =>
    match reconcileOnce env rr domain ipaddr ipv6 s with
    | (Sum.inl e, s1, t1) => (some e, s1, t1)
    | (Sum.inr err, s1, t1) =>
      if isDuplicate err then
        let d := DelRecord env rr domain s1
        let r := CheckAndUpdateRecord env fuel rr domain ipaddr ipv6 d.2.1
        (r.1, r.2.1, t1 ++ d.2.2 ++ r.2.2)
      else (some err, s1, t1)

/-! ## Vocabulary for traces of outside calls -/

/-- The records of the pages a trace received, in the order received. -/
def pagesOf : List Event → List RecordTypeNew
  | [] => []
  | Event.describeDomainRecordsNew _ _ _ (DescribeResponse.ok records _) :: t =>
    records ++ pagesOf t
  | _ :: t => pagesOf t

/-- The mutating provider calls: delete, update, create. -/
def Event.isWrite : Event → Bool
  | Event.deleteDomainRecord _ _ => true
  | Event.updateDomainRecord _ _ _ _ _ => true
  | Event.addDomainRecord _ _ _ _ _ => true
  | _ => false

/-- The mutating provider calls of a trace, in order. -/
def writes (t : List Event) : List Event := t.filter Event.isWrite

/-- What the host-label frame asks of one call, given the records `listed` that the pages
received before it held: a delete or an update targets the id of a listed record whose `RR`
is `rr` (for an update, one of the requested type too, and it carries `rr`, the requested type
and the desired value); a create is for `(domain, rr, recordType, ipaddr)`. -/
def FrameOK (rr domain recordType ipaddr : String) (listed : List RecordTypeNew) :
    Event → Prop
  | Event.deleteDomainRecord recordId _ => ∃ r ∈ listed, r.RR = rr ∧ r.RecordId = recordId
  | Event.updateDomainRecord recordId rr1 value type_ _ =>
    (∃ r ∈ listed, r.RR = rr ∧ r.Type_ = recordType ∧ r.RecordId = recordId)
      ∧ rr1 = rr ∧ value = ipaddr ∧ type_ = recordType
  | Event.addDomainRecord domainName rr1 type_ value _ =>
    domainName = domain ∧ rr1 = rr ∧ type_ = recordType ∧ value = ipaddr
  | _ => True

/-- Every call of the trace respects the frame, judged against the pages received before it. -/
def Framed (rr domain recordType ipaddr : String) (t : List Event) : Prop :=
  ∀ before ev after, t = before ++ ev :: after →
    FrameOK rr domain recordType ipaddr (pagesOf before) ev

/-- The create and update calls of a trace that failed with a `DomainRecordDuplicate` error. -/
def duplicateWrites (t : List Event) : List Event :=
  t.filter (fun ev =>
    match ev with
    | Event.addDomainRecord _ _ _ _ err => isDuplicate err
    | Event.updateDomainRecord _ _ _ _ err => isDuplicate err
    | _ => false)

/-- The `RecordId` a delete or update call targets. -/
def Event.target : Event → Option String
  | Event.deleteDomainRecord recordId _ => some recordId
  | Event.updateDomainRecord recordId _ _ _ _ => some recordId
  | _ => none

/-- The frame, judged with `listed` already received before the trace starts. -/
def FramedFrom (rr domain recordType ipaddr : String) (listed : List RecordTypeNew)
    (t : List Event) : Prop :=
  ∀ before ev after, t = before ++ ev :: after →
    FrameOK rr domain recordType ipaddr (listed ++ pagesOf before) ev

/-! ## A provider that behaves faithfully

The in-memory provider the testable properties speak about: its state is the list of records
it holds, over all domains; every call succeeds and takes effect. -/

/-- The records a provider state holds for domain `d`, in listing order. -/
def zoneOf (s : List RecordTypeNew) (d : String) : List RecordTypeNew :=
  s.filter (fun r => r.DomainName = d)

/-- The record `UpdateDomainRecord` leaves for `r`. -/
def updated (rr value type_ : String) (r : RecordTypeNew) : RecordTypeNew :=
  { r with RR := rr, Type_ := type_, Value := value }

/-- The faithful provider.  A page request answers the `pageSize` records of the domain at
offset `(pageNumber - 1) * pageSize`, with the number of records of the domain as total;
a delete removes the record with the id; an update rewrites the host label, type and value of
the record with the id; a create appends a record under the id `newId` picks.  `dns` is the
answer the public resolvers give, which may or may not follow the provider's state, and `split`
is `splitDomain`. -/
def faithful (split : String → String × String)
    (dns : List RecordTypeNew → String → Bool → String)
    (newId : List RecordTypeNew → String) : Env (List RecordTypeNew) where
  splitDomain := split
  getDNS := fun fulldomain ipv6 s => (dns s fulldomain ipv6, s)
  DescribeDomainRecordsNew := fun d pageNumber pageSize s =>
    (DescribeResponse.ok (((zoneOf s d).drop ((pageNumber - 1) * pageSize)).take pageSize)
      (zoneOf s d).length, s)
  DeleteDomainRecord := fun recordId s => (none, s.filter (fun r => r.RecordId ≠ recordId))
  UpdateDomainRecord := fun recordId rr value type_ s =>
    (none, s.map (fun r => if r.RecordId = recordId then updated rr value type_ r else r))
  AddDomainRecord := fun d rr type_ value s =>
    (none, s ++ [{ DomainName := d, RecordId := newId s, RR := rr, Type_ := type_,
                   Value := value }])

/-- The state `DelRecord` leaves on the faithful provider after listing `listed`: every record
whose id is the id of a listed record with host label `rr` is gone. -/
def withoutListed (rr : String) (listed s : List RecordTypeNew) : List RecordTypeNew :=
  s.filter (fun x => !listed.any (fun r => r.RR = rr ∧ r.RecordId = x.RecordId))

/-- The delete calls `DelRecord` makes for a listing, each accepted. -/
def deletesFor (rr : String) (listed : List RecordTypeNew) : List Event :=
  (listed.filter (fun r => r.RR = rr)).map (fun r => Event.deleteDomainRecord r.RecordId none)

/-- The records of a state for `(rr, domain, type)`. -/
def recordsFor (rr domain type_ : String) (s : List RecordTypeNew) : List RecordTypeNew :=
  s.filter (fun r => r.DomainName = domain ∧ r.RR = rr ∧ r.Type_ = type_)

/-! ## Go library functions used by `appInit` and the `auto-update` action -/

/-- Lexicographic comparison of two character sequences. -/
def lessChars : List Char → List Char → Bool
  | _, [] => false
  | [], _ :: _ => true
  | a :: as, b :: bs => if a = b then lessChars as bs else decide (a < b)

/-- Go's `<` on strings.  Go compares byte-wise; on the UTF-8 encoding that is the comparison
by code points made here. -/
def stringLess (a b : String) : Bool := lessChars a.data b.data

/-- The inner loop of Go's `insertionSort` (`for j := i; j > a && data.Less(j, j-1); j--`):
`x` is the element at `j`, the list holds the elements before it, nearest first, and
`less x y` is `data.Less(j, j-1)`. -/
def sinkLeft {α : Type} (less : α → α → Bool) (x : α) : List α → List α
  | [] => [x]
  | y :: before => if less x y then y :: sinkLeft less x before else x :: y :: before

/-- Go's `insertionSort`, which is what `sort.Sort` runs on a slice of fewer than 12
elements. -/
def insertionSort {α : Type} (less : α → α → Bool) (data : List α) : List α :=
  (data.foldl (fun sortedRev x => sinkLeft less x sortedRev) []).reverse

/-- The call `sort.Sort(sort.Reverse(sort.StringSlice(data)))`: `Reverse` swaps the arguments
of `Less`, so `Less(j, j-1)` is `data[j-1] < data[j]`. -/
def sortReverseStrings (data : List String) : List String :=
  insertionSort (fun x y => stringLess y x) data

/-- A regular expression without anchors. -/
inductive Regex where
  | fail
  | empty
  | char (p : Char → Bool)
  | cat (a b : Regex)
  | alt (a b : Regex)
  | star (a : Regex)

/-- Whether the expression matches the empty string. -/
def Regex.nullable : Regex → Bool
  | Regex.fail => false
  | Regex.empty => true
  | Regex.char _ => false
  | Regex.cat a b => a.nullable && b.nullable
  | Regex.alt a b => a.nullable || b.nullable
  | Regex.star _ => true

/-- The expression matching what is left to match after reading `c`. -/
def Regex.deriv : Regex → Char → Regex
  | Regex.fail, _ => Regex.fail
  | Regex.empty, _ => Regex.fail
  | Regex.char p, c => if p c then Regex.empty else Regex.fail
  | Regex.cat a b, c =>
    if a.nullable then Regex.alt (Regex.cat (a.deriv c) b) (b.deriv c)
    else Regex.cat (a.deriv c) b
  | Regex.alt a b, c => Regex.alt (a.deriv c) (b.deriv c)
  | Regex.star a, c => Regex.cat (a.deriv c) (Regex.star a)

/-- Whether the expression matches the whole of `s`. -/
def Regex.matchesAll (r : Regex) (s : List Char) : Bool := (s.foldl Regex.deriv r).nullable

/-- The expression `a+`. -/
def Regex.plus (a : Regex) : Regex := Regex.cat a (Regex.star a)

/-- The expression `a?`. -/
def Regex.opt (a : Regex) : Regex := Regex.alt a Regex.empty

/-- One given character. -/
def Regex.one (c : Char) : Regex := Regex.char (fun x => x = c)

/-- The characters of `s` in a row. -/
def Regex.lit (s : String) : Regex :=
  s.data.foldr (fun c r => Regex.cat (Regex.one c) r) Regex.empty

/-- A compiled pattern of the shapes `main.go` uses: an optional `^`, a body, an optional `$`
(without the multi-line flag these anchor at the ends of the text). -/
structure Pattern where
  anchoredStart : Bool
  body : Regex
  anchoredEnd : Bool

/-- Go `regexp.MatchString`: whether some substring, placed as the anchors ask, matches. -/
def Pattern.MatchString (p : Pattern) (s : String) : Bool :=
  (List.range (s.data.length + 1)).any (fun start =>
    (!p.anchoredStart || start == 0) &&
      (List.range (s.data.length - start + 1)).any (fun len =>
        (!p.anchoredEnd || start + len == s.data.length) &&
          p.body.matchesAll ((s.data.drop start).take len)))

/-- The class `\d`, in Go the ASCII digits. -/
def digit : Regex := Regex.char (fun c => decide ('0'.toNat ≤ c.toNat ∧ c.toNat ≤ '9'.toNat))

/-- The class `[Rr]`. -/
def upperOrLowerR : Regex := Regex.char (fun c => c = 'R' || c = 'r')

/-- The pattern of line 269: `\d+[Rr]?$`. -/
def redoPattern : Pattern :=
  { anchoredStart := false, body := Regex.cat digit.plus upperOrLowerR.opt, anchoredEnd := true }

/-- The pattern the specification gives for the interval: `^\d+[Rr]?$`. -/
def redoSpecPattern : Pattern :=
  { anchoredStart := true, body := Regex.cat digit.plus upperOrLowerR.opt, anchoredEnd := true }

/-- The pattern of line 272: `\d+[Rr]$`. -/
def randomDelayPattern : Pattern :=
  { anchoredStart := false, body := Regex.cat digit.plus upperOrLowerR, anchoredEnd := true }

/-- The pattern of line 394: `^https?://.*` (`.` is any character but a newline). -/
def schemePattern : Pattern :=
  { anchoredStart := true,
    body := Regex.cat (Regex.lit "http") (Regex.cat (Regex.one 's').opt
      (Regex.cat (Regex.lit "://") (Regex.star (Regex.char (fun c => c ≠ Char.ofNat 10))))),
    anchoredEnd := false }

/-- The class `[-A-Za-z0-9+&@#/%=~_|]` of line 397. -/
def urlTailChar (c : Char) : Bool :=
  c.isUpper || c.isLower || decide ('0'.toNat ≤ c.toNat ∧ c.toNat ≤ '9'.toNat)
    || "-+&@#/%=~_|".data.contains c

/-- The class `[-A-Za-z0-9+&@#/%?=~_|!:,.;]` of line 397. -/
def urlChar (c : Char) : Bool := urlTailChar c || "?!:,.;".data.contains c

/-- The pattern of line 397:
`(https?|ftp|file)://[-A-Za-z0-9+&@#/%?=~_|!:,.;]+[-A-Za-z0-9+&@#/%=~_|]`. -/
def urlPattern : Pattern :=
  { anchoredStart := false,
    body := Regex.cat
      (Regex.alt (Regex.cat (Regex.lit "http") (Regex.one 's').opt)
        (Regex.alt (Regex.lit "ftp") (Regex.lit "file")))
      (Regex.cat (Regex.lit "://")
        (Regex.cat (Regex.char urlChar).plus (Regex.char urlTailChar))),
    anchoredEnd := false }

/-- The value of a run of ASCII digits; `none` for an empty run or another character. -/
def parseDigits (s : List Char) : Option Nat :=
  if s = [] ∨ ¬ s.all (fun c => decide ('0'.toNat ≤ c.toNat ∧ c.toNat ≤ '9'.toNat)) then none
  else some (s.foldl (fun n c => n * 10 + (c.toNat - '0'.toNat)) 0)

/-- The value Go `strconv.Atoi` returns, on a 64-bit platform, whatever error goes with it
(both call sites drop the error): an optional sign and decimal digits give their value, cut to
the `int64` range; anything else gives 0. -/
def Atoi (s : String) : Int :=
  match s.data with
  | '-' :: digits =>
    match parseDigits digits with
    | some n => max (-(n : Int)) (-(2 : Int) ^ 63)
    | none => 0
  | '+' :: digits =>
    match parseDigits digits with
    | some n => min (n : Int) ((2 : Int) ^ 63 - 1)
    | none => 0
  | digits =>
    match parseDigits digits with
    | some n => min (n : Int) ((2 : Int) ^ 63 - 1)
    | none => 0

/-- The value of an `int64` computation after wrap-around. -/
def wrapInt64 (x : Int) : Int := (x + 2 ^ 63) % 2 ^ 64 - 2 ^ 63

/-! ## `AccessKey.getClient` and `appInit` -/

/-- A `dns.Client` as `dns.NewClient(id, secret)` followed by `SetEndpoint` leaves it. -/
structure Client where
  AccessKeyId : String
  AccessKeySecret : String
  endpoint : String
deriving DecidableEq, Repr

/-- The struct `AccessKey` (lines 22-26). -/
structure AccessKey where
  ID : String
  Secret : String
  client : Option Client
deriving DecidableEq, Repr

/-- The method `(ak *AccessKey) getClient()` (lines 28-37): the client, and the receiver with
the client it now caches.  `DNSDefaultEndpointNew` is a constant of package `alidns`. -/
def AccessKey.getClient (DNSDefaultEndpointNew : String) (ak : AccessKey) :
    Option Client × AccessKey :=
  if ak.ID.utf8ByteSize ≤ 0 ∧ ak.Secret.utf8ByteSize ≤ 0 then (none, ak)
  else
    match ak.client with
    | none =>
      (some { AccessKeyId := ak.ID, AccessKeySecret := ak.Secret,
              endpoint := DNSDefaultEndpointNew },
        { ak with client := some { AccessKeyId := ak.ID, AccessKeySecret := ak.Secret,
                                   endpoint := DNSDefaultEndpointNew } })
    | some c => (some c, ak)

/-- The flag values of a `cli.Context` that `main.go` reads. -/
structure Context where
  accessKeyId : String
  accessKeySecret : String
  ipapi : List String
  domain : String
  ipaddr : String
  redo : String
  ipv6 : Bool

/-- The package-level variables `accessKey` (line 149) and `ipAPI` (another file). -/
structure Globals where
  accessKey : AccessKey
  ipAPI : List String

/-- The loop of lines 393-400 over the `--ipapi` values. -/
def collectIPAPI : List String → List String
  | [] => []
  | api :: rest =>
    let api1 := if !schemePattern.MatchString api then "http://" ++ api else api
    if urlPattern.MatchString api1 then api1 :: collectIPAPI rest else collectIPAPI rest

/-- The function `appInit(c)` (lines 380-406).  `getenv` is `os.Getenv`; the help text that
`cli.ShowAppHelp` prints is not kept. -/
def appInit (getenv : String → String) (DNSDefaultEndpointNew : String) (c : Context)
    (g : Globals) : GoError × Globals :=
  let akids := sortReverseStrings [c.accessKeyId, getenv "AKID", getenv "AccessKeyID"]
  let akscts := sortReverseStrings [c.accessKeySecret, getenv "AKSCT", getenv "AccessKeySecret"]
  let ak : AccessKey :=
    { g.accessKey with ID := akids.headD "", Secret := akscts.headD "" }
  let gc := ak.getClient DNSDefaultEndpointNew
  match gc.1 with
  | none => (some "access-key is empty", { g with accessKey := gc.2 })
  | some _ =>
    let newIPAPI := collectIPAPI c.ipapi
    (none, { accessKey := gc.2, ipAPI := if newIPAPI.length > 0 then newIPAPI else g.ipAPI })

/-! ## The `auto-update` action (lines 262-307) -/

/-- The collaborators of the `auto-update` action outside `main.go`: those of the reconciler,
`getIP`, `getIP6` and `ip2locCN` (other files of the repository), `rand.Intn`, `os.Getenv` and
the endpoint constant of `alidns`. -/
structure Host (σ : Type) extends Env σ where
  getIP : σ → String × σ
  getIP6 : σ → String × σ
  ip2locCN : String → σ → String × σ
  randIntn : Int → σ → Int × σ
  Getenv : String → String
  DNSDefaultEndpointNew : String

/-- Lines 284-287: `autoip := getIP()`, replaced by `getIP6()` with `--ipv6`. -/
def resolveAutoIP {σ : Type} (host : Host σ) (ipv6 : Bool) (s : σ) : String × σ × List Event :=
  let a := host.getIP s
  if ipv6 then
    let b := host.getIP6 a.2
    (b.1, b.2, [Event.getIP a.1, Event.getIP6 b.1])
  else (a.1, a.2, [Event.getIP a.1])

/-- The `for` loop of lines 283-305, for at most `rounds` iterations; each call of
`CheckAndUpdateRecord` gets `fuel` activations.  `none` when the loop has not ended within
`rounds` iterations or a call has not returned.  What is logged is not kept. -/
def autoUpdateLoop {σ : Type} (host : Host σ) (fuel : Nat) (rr domain : String) (ipv6 : Bool)
    (redoDurtion : Int) (randomDelay : Bool) : Nat → σ → Option Unit × σ × List Event
  | 0, s => (none, s, [])
  | rounds + 1, s =>
    let ip := resolveAutoIP host ipv6 s
    let run : Option Unit × σ × List Event :=
      if ip.1.utf8ByteSize = 0 then (some (), ip.2.1, [])
      else
        let r := CheckAndUpdateRecord host.toEnv fuel rr domain ip.1 ipv6 ip.2.1
        match r.1 with
        | none => (none, r.2.1, r.2.2)
        | some (some _) => (some (), r.2.1, r.2.2)
        | some none =>
          let l := host.ip2locCN ip.1 r.2.1
          (some (), l.2, r.2.2 ++ [Event.ip2locCN ip.1])
    match run.1 with
    | none => (none, run.2.1, ip.2.2 ++ run.2.2)
    | some _ =>
      if redoDurtion < 10 then (some (), run.2.1, ip.2.2 ++ run.2.2)
      else
        let pause : σ × List Event :=
          if randomDelay then
            let n := host.randIntn redoDurtion run.2.1
            (n.2, [Event.randIntn redoDurtion n.1,
              Event.sleep (wrapInt64 (wrapInt64 (redoDurtion + n.1) * 1000000000))])
          else (run.2.1, [Event.sleep (wrapInt64 (redoDurtion * 1000000000))])
        let rest := autoUpdateLoop host fuel rr domain ipv6 redoDurtion randomDelay rounds
          pause.1
        (rest.1, rest.2.1, ip.2.2 ++ run.2.2 ++ pause.2 ++ rest.2.2)

/-- The `Action` of the `auto-update` command (lines 262-307): the error it returns (`none`
when it has not returned within the bounds), the package variables and the world it leaves,
and its outside calls.  The version line printed to stderr is not kept. -/
def autoUpdateAction {σ : Type} (host : Host σ) (fuel rounds : Nat) (c : Context)
    (g : Globals) (s : σ) : Option GoError × Globals × σ × List Event :=
  match appInit host.Getenv host.DNSDefaultEndpointNew c g with
  | (some e, g1) => (some (some e), g1, s, [])
  | (none, g1) =>
    let split := host.splitDomain c.domain
    let redoDurtionStr := c.redo
    if redoDurtionStr.utf8ByteSize > 0 ∧ !redoPattern.MatchString redoDurtionStr then
      (some (some "redo format: [0-9]+[Rr]?$"), g1, s, [])
    else
      let randomDelay := randomDelayPattern.MatchString redoDurtionStr
      let redoDurtion :=
        if randomDelay then Atoi (String.mk redoDurtionStr.data.dropLast)
        else Atoi redoDurtionStr
      let loop := autoUpdateLoop host fuel split.1 split.2 c.ipv6 redoDurtion randomDelay
        rounds s
      match loop.1 with
      | none => (none, g1, loop.2.1, loop.2.2)
      | some _ => (some none, g1, loop.2.1, loop.2.2)

/-! ## Concrete providers and states used by the examples -/

/-- A `splitDomain` for the examples: the first label and the rest; no label for a name
without a dot. -/
def splitFirstLabel (fulldomain : String) : String × String :=
  match fulldomain.data.span (fun c => c ≠ '.') with
  | (_, []) => ("", fulldomain)
  | (label, _ :: rest) => (String.mk label, String.mk rest)

/-- A faithful provider whose public DNS answer is always `answer` and whose new records get
the id `"new"`. -/
def faithfulWithDNS (answer : String) : Env (List RecordTypeNew) :=
  faithful splitFirstLabel (fun _ _ _ => answer) (fun _ => "new")

/-- An `A` record of `example.com`. -/
def aRecord (recordId rr value : String) : RecordTypeNew :=
  { DomainName := "example.com", RecordId := recordId, RR := rr, Type_ := "A", Value := value }

/-- Two `A` records for `ddns.example.com` and one record of another host. -/
def twoForDdns : List RecordTypeNew :=
  [aRecord "1" "ddns" "198.51.100.1", aRecord "2" "www" "198.51.100.9",
    aRecord "3" "ddns" "198.51.100.2"]

/-- One `A` record for `ddns.example.com` and one record of another host. -/
def oneForDdns : List RecordTypeNew :=
  [aRecord "1" "ddns" "198.51.100.1", aRecord "2" "www" "198.51.100.9"]

/-- The `i`-th record of host `www`, with id `w` followed by `i`. -/
def fillerRecord (i : Nat) : RecordTypeNew :=
  aRecord ("w" ++ toString i) "www" "198.51.100.9"

/-- The records of host `www` that fill the pages. -/
def fillers : List RecordTypeNew := (List.range 4948).map fillerRecord

/-- A domain of 4951 records: two `A` records for `ddns` first, 4948 records of host `www`,
and a third `A` record for `ddns` last, past the 4950 records that 99 pages of 50 hold. -/
def crowdedZone : List RecordTypeNew :=
  aRecord "1" "ddns" "198.51.100.1" :: aRecord "2" "ddns" "198.51.100.2"
    :: (fillers ++ [aRecord "3" "ddns" "198.51.100.3"])

/-- The message of the provider's duplicate-record error. -/
def duplicateError : String :=
  "Aliyun API Error: Status Code: 400 Code: DomainRecordDuplicate Message: already exists."

/-- A provider that holds no record and whose create fails with the duplicate-record error as
many times as its state counts, then succeeds; the public DNS has no answer. -/
def duplicating : Env Nat where
  splitDomain := splitFirstLabel
  getDNS := fun _ _ n => ("", n)
  DescribeDomainRecordsNew := fun _ _ _ n => (DescribeResponse.ok [] 0, n)
  DeleteDomainRecord := fun _ n => (none, n)
  UpdateDomainRecord := fun _ _ _ _ n => (none, n)
  AddDomainRecord := fun _ _ _ _ n =>
    match n with
    | 0 => (none, 0)
    | k + 1 => (some duplicateError, k)

/-- A provider that holds no record and whose create fails with the duplicate-record error on
every attempt; the public DNS has no answer. -/
def alwaysDuplicating : Env Unit where
  splitDomain := splitFirstLabel
  getDNS := fun _ _ u => ("", u)
  DescribeDomainRecordsNew := fun _ _ _ u => (DescribeResponse.ok [] 0, u)
  DeleteDomainRecord := fun _ u => (none, u)
  UpdateDomainRecord := fun _ _ _ _ u => (none, u)
  AddDomainRecord := fun _ _ _ _ u => (some duplicateError, u)

/-- A command line with the flag `--access-key-id LTAI4flag` for `ddns.example.com`. -/
def flagContext : Context :=
  { accessKeyId := "LTAI4flag", accessKeySecret := "secret-of-flag", ipapi := [],
    domain := "ddns.example.com", ipaddr := "", redo := "", ipv6 := false }

/-- An environment that sets `AKID=LTAI5env` and nothing else. -/
def envWithAKID (name : String) : String := if name = "AKID" then "LTAI5env" else ""

/-- The package variables before `appInit`. -/
def freshGlobals : Globals :=
  { accessKey := { ID := "", Secret := "", client := none }, ipAPI := [] }

/-- A host over the faithful provider: the machine's address is `203.0.113.7`, the public DNS
has no answer, the environment is empty. -/
def demoHost : Host (List RecordTypeNew) :=
  { toEnv := faithfulWithDNS ""
    getIP := fun s => ("203.0.113.7", s)
    getIP6 := fun s => ("2001:db8::7", s)
    ip2locCN := fun _ s => ("", s)
    randIntn := fun _ s => (0, s)
    Getenv := fun _ => ""
    DNSDefaultEndpointNew := "https://alidns.aliyuncs.com" }

/-- A provider that answers every page request with no record and a total count one higher
than the time before; its state counts the requests. -/
def growingTotal : Env Nat where
  splitDomain := splitFirstLabel
  getDNS := fun _ _ n => ("", n)
  DescribeDomainRecordsNew := fun _ _ _ n => (DescribeResponse.ok [] (n + 1), n + 1)
  DeleteDomainRecord := fun _ n => (none, n)
  UpdateDomainRecord := fun _ _ _ _ n => (none, n)
  AddDomainRecord := fun _ _ _ _ n => (none, n)

/-! ## Theorems: `ListRecord` -/

@[simp] theorem pagesOf_nil : pagesOf [] = [] := rfl

@[simp] theorem pagesOf_ok (d : String) (i z : Nat) (p : List RecordTypeNew) (n : Int)
    (t : List Event) :
    pagesOf (Event.describeDomainRecordsNew d i z (DescribeResponse.ok p n) :: t)
      = p ++ pagesOf t := rfl

@[simp] theorem pagesOf_error (d : String) (i z : Nat) (m : String) (t : List Event) :
    pagesOf (Event.describeDomainRecordsNew d i z (DescribeResponse.error m) :: t)
      = pagesOf t := rfl

theorem ListRecord_loop_spec {σ : Type} (env : Env σ) (d : String) :
    ∀ (n idx : Nat) (acc : List RecordTypeNew) (s : σ), 0 < n →
    ∃ k, 1 ≤ k ∧ k ≤ n ∧ (ListRecord.loop env d n idx acc s).2.2.length = k ∧
      (∀ i, i < k → ∃ resp, (ListRecord.loop env d n idx acc s).2.2[i]?
          = some (Event.describeDomainRecordsNew d (idx + i) 50 resp)) ∧
      (∀ i, i + 1 < k → ∃ page total, (ListRecord.loop env d n idx acc s).2.2[i]?
          = some (Event.describeDomainRecordsNew d (idx + i) 50 (DescribeResponse.ok page total))
          ∧ ((acc ++ pagesOf ((ListRecord.loop env d n idx acc s).2.2.take (i + 1))).length : Int)
              < total) ∧
      ((∃ msg, (ListRecord.loop env d n idx acc s).2.2[k - 1]?
            = some (Event.describeDomainRecordsNew d (idx + (k - 1)) 50
                (DescribeResponse.error msg))
          ∧ (ListRecord.loop env d n idx acc s).1
            = (acc ++ pagesOf (ListRecord.loop env d n idx acc s).2.2, some msg)) ∨
        (∃ page total, (ListRecord.loop env d n idx acc s).2.2[k - 1]?
            = some (Event.describeDomainRecordsNew d (idx + (k - 1)) 50
                (DescribeResponse.ok page total))
          ∧ (ListRecord.loop env d n idx acc s).1
            = (acc ++ pagesOf (ListRecord.loop env d n idx acc s).2.2, none)
          ∧ (total ≤ ((acc ++ pagesOf (ListRecord.loop env d n idx acc s).2.2).length : Int)
              ∨ k = n))) := by
  intro n
  induction n with
  | zero => intro idx acc s h; omega
  | succ n ih =>
    intro idx acc s _
    rw [ListRecord.loop]
    rcases hq : env.DescribeDomainRecordsNew d idx 50 s with ⟨resp, s1⟩
    cases resp with
    | error msg =>
      refine ⟨1, le_refl _, by omega, rfl, ?_, ?_, Or.inl ⟨msg, by simp, by simp⟩⟩
      · intro i hi
        have : i = 0 := by omega
        subst this
        exact ⟨_, rfl⟩
      · intro i hi; omega
    | ok page total =>
      by_cases hstop : ((acc ++ page).length : Int) ≥ total
      · simp only [hstop, if_true]
        refine ⟨1, le_refl _, by omega, rfl, ?_, ?_, Or.inr ⟨page, total, by simp, by simp, ?_⟩⟩
        · intro i hi
          have : i = 0 := by omega
          subst this
          exact ⟨_, rfl⟩
        · intro i hi; omega
        · left; simpa using hstop
      · simp only [hstop, if_false]
        rcases Nat.eq_zero_or_pos n with hn | hn
        · subst hn
          simp only [ListRecord.loop]
          refine ⟨1, le_refl _, by omega, rfl, ?_, ?_, Or.inr ⟨page, total, by simp, by simp, ?_⟩⟩
          · intro i hi
            have : i = 0 := by omega
            subst this
            exact ⟨_, rfl⟩
          · intro i hi; omega
          · right; rfl
        · obtain ⟨k, hk1, hkn, hlen, hreq, hcont, hfin⟩ := ih (idx + 1) (acc ++ page) s1 hn
          refine ⟨k + 1, by omega, by omega, by simp only [List.length_cons, hlen], ?_, ?_, ?_⟩
          · intro i hi
            cases i with
            | zero => exact ⟨DescribeResponse.ok page total, by simp⟩
            | succ i =>
              obtain ⟨resp, hr⟩ := hreq i (by omega)
              refine ⟨resp, ?_⟩
              rw [show idx + (i + 1) = idx + 1 + i by omega]
              simpa using hr
          · intro i hi
            cases i with
            | zero =>
              refine ⟨page, total, by simp, ?_⟩
              simp only [List.take_succ_cons, List.take_zero, pagesOf_ok, pagesOf_nil,
                List.append_nil]
              exact lt_of_not_ge hstop
            | succ i =>
              obtain ⟨p, tot, hr, hlt⟩ := hcont i (by omega)
              refine ⟨p, tot, ?_, ?_⟩
              · rw [show idx + (i + 1) = idx + 1 + i by omega]
                simpa using hr
              · simpa [List.take_succ_cons, List.append_assoc] using hlt
          · have hk : k + 1 - 1 = (k - 1) + 1 := by omega
            rcases hfin with ⟨msg, hl, hres⟩ | ⟨p, tot, hl, hres, hst⟩
            · refine Or.inl ⟨msg, ?_, ?_⟩
              · rw [hk, List.getElem?_cons_succ, hl,
                  show idx + (k - 1 + 1) = idx + 1 + (k - 1) by omega]
              · simpa [List.append_assoc] using hres
            · refine Or.inr ⟨p, tot, ?_, ?_, ?_⟩
              · rw [hk, List.getElem?_cons_succ, hl,
                  show idx + (k - 1 + 1) = idx + 1 + (k - 1) by omega]
              · simpa [List.append_assoc] using hres
              · rcases hst with h | h
                · left; simpa [List.append_assoc] using h
                · right; omega


/-- C7 (pagination termination).  For every provider, whatever totals and pages it answers:
`ListRecord` makes `k` page requests with `1 ≤ k ≤ 99`, for pages `1, 2, ..., k` of the listed
domain in that order with page size 50; after each page before the last the accumulated record
count was still below the total reported on that page; the last page either failed, and its
error is returned with the records accumulated before it, or it succeeded, nil is returned, and
the accumulated count has reached the total of that page or `k = 99`; the records returned are
the concatenation, in order, of the pages received. -/
theorem ListRecord_pagination {σ : Type} (env : Env σ) (domain : String) (s : σ) :
    ∃ k, 1 ≤ k ∧ k ≤ 99 ∧ (ListRecord env domain s).2.2.length = k ∧
      (∀ i, i < k → ∃ resp, (ListRecord env domain s).2.2[i]?
          = some (Event.describeDomainRecordsNew (listDomain env domain) (i + 1) 50 resp)) ∧
      (∀ i, i + 1 < k → ∃ page total, (ListRecord env domain s).2.2[i]?
          = some (Event.describeDomainRecordsNew (listDomain env domain) (i + 1) 50
              (DescribeResponse.ok page total))
          ∧ ((pagesOf ((ListRecord env domain s).2.2.take (i + 1))).length : Int) < total) ∧
      ((∃ msg, (ListRecord env domain s).2.2[k - 1]?
            = some (Event.describeDomainRecordsNew (listDomain env domain) k 50
                (DescribeResponse.error msg))
          ∧ (ListRecord env domain s).1 = (pagesOf (ListRecord env domain s).2.2, some msg)) ∨
        (∃ page total, (ListRecord env domain s).2.2[k - 1]?
            = some (Event.describeDomainRecordsNew (listDomain env domain) k 50
                (DescribeResponse.ok page total))
          ∧ (ListRecord env domain s).1 = (pagesOf (ListRecord env domain s).2.2, none)
          ∧ (total ≤ ((pagesOf (ListRecord env domain s).2.2).length : Int) ∨ k = 99))) := by
  obtain ⟨k, hk1, hk99, hlen, hreq, hcont, hfin⟩ :=
    ListRecord_loop_spec env (listDomain env domain) 99 1 [] s (by decide)
  have hk : 1 + (k - 1) = k := by omega
  refine ⟨k, hk1, hk99, hlen, ?_, ?_, ?_⟩
  · intro i hi
    obtain ⟨resp, hr⟩ := hreq i hi
    exact ⟨resp, by rw [Nat.add_comm i 1]; exact hr⟩
  · intro i hi
    obtain ⟨page, total, hr, hlt⟩ := hcont i hi
    exact ⟨page, total, by rw [Nat.add_comm i 1]; exact hr, by simpa using hlt⟩
  · rw [hk] at hfin
    simpa only [List.nil_append] using hfin

/-- Against a provider that reports an ever-growing total and no record, `ListRecord` returns
nil and no record after exactly 99 page requests. -/
theorem ListRecord_growing_total :
    (ListRecord growingTotal "example.com" 0).1 = ([], none) ∧
      (ListRecord growingTotal "example.com" 0).2.1 = 99 ∧
      (ListRecord growingTotal "example.com" 0).2.2.length = 99 := by
  decide

/-! ## Theorems: one pass of `CheckAndUpdateRecord` over any provider -/

@[simp] theorem writes_nil : writes [] = [] := rfl

@[simp] theorem writes_append (a b : List Event) : writes (a ++ b) = writes a ++ writes b := by
  simp [writes]

theorem writes_cons (e : Event) (t : List Event) :
    writes (e :: t) = if e.isWrite then e :: writes t else writes t := by
  simp only [writes, List.filter_cons]

theorem ListRecord_loop_writes {σ : Type} (env : Env σ) (d : String) :
    ∀ (n idx : Nat) (acc : List RecordTypeNew) (s : σ),
      writes (ListRecord.loop env d n idx acc s).2.2 = [] := by
  intro n
  induction n with
  | zero => intro idx acc s; rfl
  | succ n ih =>
    intro idx acc s
    rw [ListRecord.loop]
    rcases env.DescribeDomainRecordsNew d idx 50 s with ⟨resp, s1⟩
    cases resp with
    | error msg => rfl
    | ok page total =>
      by_cases hstop : ((acc ++ page).length : Int) ≥ total
      · simp only [hstop, if_true]; rfl
      · simp only [hstop, if_false, writes_cons, Event.isWrite]
        exact ih _ _ _

theorem ListRecord_writes {σ : Type} (env : Env σ) (domain : String) (s : σ) :
    writes (ListRecord env domain s).2.2 = [] :=
  ListRecord_loop_writes env _ _ _ _ _

theorem findTarget_eq (rr recordType : String) :
    ∀ (recs : List RecordTypeNew) (acc : Option RecordTypeNew × Nat),
      findTarget rr recordType recs acc
        = (((recs.filter (fun x => x.RR = rr ∧ x.Type_ = recordType)).getLast?).or acc.1,
            acc.2 + (recs.filter (fun x => x.RR = rr ∧ x.Type_ = recordType)).length) := by
  intro recs
  induction recs with
  | nil => intro acc; simp [findTarget]
  | cons r rs ih =>
    intro acc
    by_cases h : r.RR = rr ∧ r.Type_ = recordType
    · rw [findTarget, if_pos h, ih, List.filter_cons_of_pos (by simpa using h)]
      simp only [List.length_cons]
      refine Prod.ext ?_ (by simp only; omega)
      simp only
      cases hf : List.filter (fun x => decide (x.RR = rr ∧ x.Type_ = recordType)) rs with
      | nil => simp
      | cons a l =>
        obtain ⟨x, hx⟩ : ∃ x, (a :: l).getLast? = some x :=
          ⟨_, List.getLast?_eq_getLast _ (by simp)⟩
        simp [List.getLast?_cons_cons, hx]
    · rw [findTarget, if_neg h, ih, List.filter_cons_of_neg (by simpa using h)]

theorem reconcileOnce_skip {σ : Type} (env : Env σ) (rr domain ipaddr : String) (ipv6 : Bool)
    (s : σ) (h : (env.getDNS (rr ++ "." ++ domain) ipv6 s).1 = ipaddr) :
    reconcileOnce env rr domain ipaddr ipv6 s
      = (Sum.inl none, (env.getDNS (rr ++ "." ++ domain) ipv6 s).2,
          [Event.getDNS (rr ++ "." ++ domain) ipv6 (env.getDNS (rr ++ "." ++ domain) ipv6 s).1]) := by
  simp only [reconcileOnce, h, if_true]

theorem reconcileOnce_listed {σ : Type} (env : Env σ) (rr domain ipaddr : String) (ipv6 : Bool)
    (s : σ) (recs : List RecordTypeNew) (s1 : σ) (t1 : List Event)
    (h : (env.getDNS (rr ++ "." ++ domain) ipv6 s).1 ≠ ipaddr)
    (hlist : ListRecord env domain (env.getDNS (rr ++ "." ++ domain) ipv6 s).2
      = ((recs, none), s1, t1)) :
    reconcileOnce env rr domain ipaddr ipv6 s
      = ((writeRecord env domain rr (recordTypeOf ipv6) ipaddr
            (dropDuplicates env rr domain
              (findTarget rr (recordTypeOf ipv6) recs (none, 0)) s1).1
            (dropDuplicates env rr domain
              (findTarget rr (recordTypeOf ipv6) recs (none, 0)) s1).2.1).1,
          (writeRecord env domain rr (recordTypeOf ipv6) ipaddr
            (dropDuplicates env rr domain
              (findTarget rr (recordTypeOf ipv6) recs (none, 0)) s1).1
            (dropDuplicates env rr domain
              (findTarget rr (recordTypeOf ipv6) recs (none, 0)) s1).2.1).2.1,
          Event.getDNS (rr ++ "." ++ domain) ipv6 (env.getDNS (rr ++ "." ++ domain) ipv6 s).1
            :: (t1 ++ (dropDuplicates env rr domain
                (findTarget rr (recordTypeOf ipv6) recs (none, 0)) s1).2.2
              ++ (writeRecord env domain rr (recordTypeOf ipv6) ipaddr
                (dropDuplicates env rr domain
                  (findTarget rr (recordTypeOf ipv6) recs (none, 0)) s1).1
                (dropDuplicates env rr domain
                  (findTarget rr (recordTypeOf ipv6) recs (none, 0)) s1).2.1).2.2)) := by
  simp only [reconcileOnce, h, if_false, hlist, recordTypeOf]

theorem reconcileOnce_listing_failed {σ : Type} (env : Env σ) (rr domain ipaddr : String)
    (ipv6 : Bool) (s : σ) (recs : List RecordTypeNew) (e : String) (s1 : σ) (t1 : List Event)
    (h : (env.getDNS (rr ++ "." ++ domain) ipv6 s).1 ≠ ipaddr)
    (hlist : ListRecord env domain (env.getDNS (rr ++ "." ++ domain) ipv6 s).2
      = ((recs, some e), s1, t1)) :
    reconcileOnce env rr domain ipaddr ipv6 s
      = (Sum.inl (some e), s1,
          Event.getDNS (rr ++ "." ++ domain) ipv6 (env.getDNS (rr ++ "." ++ domain) ipv6 s).1
            :: t1) := by
  simp only [reconcileOnce, h, if_false, hlist]

/-- C2 (no-op on match).  Over any provider: when the listing `CheckAndUpdateRecord` obtains
holds exactly one record with `RR = rr` and the requested type, and that record's value is the
desired address, the call returns nil and makes no delete, update or create call. -/
theorem CheckAndUpdateRecord_noop_on_match {σ : Type} (env : Env σ) (fuel : Nat)
    (rr domain ipaddr : String) (ipv6 : Bool) (s : σ)
    (recs : List RecordTypeNew) (r : RecordTypeNew) (s1 : σ) (t1 : List Event)
    (hlist : ListRecord env domain (env.getDNS (rr ++ "." ++ domain) ipv6 s).2
      = ((recs, none), s1, t1))
    (hone : recs.filter (fun x => x.RR = rr ∧ x.Type_ = recordTypeOf ipv6) = [r])
    (hval : r.Value = ipaddr) :
    (CheckAndUpdateRecord env (fuel + 1) rr domain ipaddr ipv6 s).1 = some none ∧
      writes (CheckAndUpdateRecord env (fuel + 1) rr domain ipaddr ipv6 s).2.2 = [] := by
  by_cases h : (env.getDNS (rr ++ "." ++ domain) ipv6 s).1 = ipaddr
  · rw [CheckAndUpdateRecord, reconcileOnce_skip env rr domain ipaddr ipv6 s h]
    exact ⟨rfl, rfl⟩
  · have ht1 : writes t1 = [] := by
      have := ListRecord_writes env domain (env.getDNS (rr ++ "." ++ domain) ipv6 s).2
      rwa [hlist] at this
    rw [CheckAndUpdateRecord, reconcileOnce_listed env rr domain ipaddr ipv6 s recs s1 t1 h hlist,
      findTarget_eq, hone]
    simp [dropDuplicates, writeRecord, hval, isDuplicate, writes_cons, Event.isWrite, ht1]

/-- C3 (type-preserving update).  Over any provider: when the DNS short-circuit does not apply,
the listing obtained holds exactly one record `r` with `RR = rr` and `Type = "A"`, its value
differs from the desired address and the provider accepts the update, then
`CheckAndUpdateRecord(rr, domain, ipaddr, false)` returns nil and its mutating calls are exactly
one `UpdateDomainRecord` with `r`'s `RecordId`, `r`'s `RR`, type `"A"` and value `ipaddr`. -/
theorem CheckAndUpdateRecord_update_in_place {σ : Type} (env : Env σ) (fuel : Nat)
    (rr domain ipaddr : String) (s : σ)
    (recs : List RecordTypeNew) (r : RecordTypeNew) (s1 : σ) (t1 : List Event)
    (hdns : (env.getDNS (rr ++ "." ++ domain) false s).1 ≠ ipaddr)
    (hlist : ListRecord env domain (env.getDNS (rr ++ "." ++ domain) false s).2
      = ((recs, none), s1, t1))
    (hone : recs.filter (fun x => x.RR = rr ∧ x.Type_ = "A") = [r])
    (hval : r.Value ≠ ipaddr)
    (haccept : (env.UpdateDomainRecord r.RecordId r.RR ipaddr "A" s1).1 = none) :
    (CheckAndUpdateRecord env (fuel + 1) rr domain ipaddr false s).1 = some none ∧
      writes (CheckAndUpdateRecord env (fuel + 1) rr domain ipaddr false s).2.2
        = [Event.updateDomainRecord r.RecordId r.RR ipaddr "A" none] := by
  have ht1 : writes t1 = [] := by
    have := ListRecord_writes env domain (env.getDNS (rr ++ "." ++ domain) false s).2
    rwa [hlist] at this
  have hr : r.RR = rr ∧ r.Type_ = "A" := by
    have : r ∈ recs.filter (fun x => x.RR = rr ∧ x.Type_ = "A") := by rw [hone]; simp
    simpa using (List.mem_filter.1 this).2
  have hone2 : recs.filter (fun x => x.RR = rr ∧ x.Type_ = recordTypeOf false) = [r] := hone
  rw [CheckAndUpdateRecord, reconcileOnce_listed env rr domain ipaddr false s recs s1 t1 hdns hlist,
    findTarget_eq, hone2]
  have hty : r.Type_ = recordTypeOf false := hr.2
  simp [dropDuplicates, writeRecord, hval, hty, UpdateRecord, isDuplicate, writes_cons,
    Event.isWrite, ht1]
  rw [show recordTypeOf false = "A" from rfl, haccept]
  simp [isDuplicate, writes_cons, Event.isWrite, ht1]

/-- The hypotheses of C2 hold for a record that already carries the desired value. -/
theorem CheckAndUpdateRecord_noop_on_match_witness :
    (CheckAndUpdateRecord (faithfulWithDNS "") 1 "ddns" "example.com" "198.51.100.1" false
        oneForDdns).1 = some none ∧
      writes (CheckAndUpdateRecord (faithfulWithDNS "") 1 "ddns" "example.com" "198.51.100.1"
        false oneForDdns).2.2 = [] :=
  CheckAndUpdateRecord_noop_on_match (faithfulWithDNS "") 0 "ddns" "example.com"
    "198.51.100.1" false oneForDdns oneForDdns (aRecord "1" "ddns" "198.51.100.1") oneForDdns
    (ListRecord (faithfulWithDNS "") "example.com" oneForDdns).2.2 (by rfl) (by decide)
    (by decide)

/-- The hypotheses of C3 hold for a record that carries another value. -/
theorem CheckAndUpdateRecord_update_in_place_witness :
    (CheckAndUpdateRecord (faithfulWithDNS "") 1 "ddns" "example.com" "203.0.113.7" false
        oneForDdns).1 = some none ∧
      writes (CheckAndUpdateRecord (faithfulWithDNS "") 1 "ddns" "example.com" "203.0.113.7"
        false oneForDdns).2.2
        = [Event.updateDomainRecord "1" "ddns" "203.0.113.7" "A" none] :=
  CheckAndUpdateRecord_update_in_place (faithfulWithDNS "") 0 "ddns" "example.com"
    "203.0.113.7" oneForDdns oneForDdns (aRecord "1" "ddns" "198.51.100.1") oneForDdns
    (ListRecord (faithfulWithDNS "") "example.com" oneForDdns).2.2 (by decide) (by rfl)
    (by decide) (by decide) (by decide)

/-! ## Theorems: the faithful provider -/

theorem faithful_loop (split : String → String × String)
    (dns : List RecordTypeNew → String → Bool → String) (newId : List RecordTypeNew → String)
    (d : String) (s : List RecordTypeNew) :
    ∀ (n m : Nat),
      (ListRecord.loop (faithful split dns newId) d n (m + 1) ((zoneOf s d).take (m * 50)) s).1
          = ((zoneOf s d).take ((m + n) * 50), none) ∧
        (ListRecord.loop (faithful split dns newId) d n (m + 1) ((zoneOf s d).take (m * 50)) s).2.1
          = s := by
  intro n
  induction n with
  | zero => intro m; exact ⟨rfl, rfl⟩
  | succ n ih =>
    intro m
    rw [ListRecord.loop]
    have hpage : (faithful split dns newId).DescribeDomainRecordsNew d (m + 1) 50 s
        = (DescribeResponse.ok (((zoneOf s d).drop (m * 50)).take 50) (zoneOf s d).length, s) :=
      rfl
    rw [hpage]
    have hacc : (zoneOf s d).take (m * 50) ++ ((zoneOf s d).drop (m * 50)).take 50
        = (zoneOf s d).take ((m + 1) * 50) := by
      rw [show (m + 1) * 50 = m * 50 + 50 by ring, List.take_add]
    simp only [hacc]
    by_cases hstop : (((zoneOf s d).take ((m + 1) * 50)).length : Int) ≥ ((zoneOf s d).length : Int)
    · simp only [hstop, if_true, and_true]
      have hle : (zoneOf s d).length ≤ (m + 1) * 50 := by
        have h1 : (zoneOf s d).length ≤ ((zoneOf s d).take ((m + 1) * 50)).length := by
          exact_mod_cast hstop
        rw [List.length_take] at h1
        omega
      rw [List.take_of_length_le hle, List.take_of_length_le (by nlinarith)]
    · simp only [hstop, if_false]
      have := ih (m + 1)
      rw [show m + 1 + n = m + (n + 1) by omega] at this
      exact this

theorem faithful_ListRecord (split : String → String × String)
    (dns : List RecordTypeNew → String → Bool → String) (newId : List RecordTypeNew → String)
    (domain : String) (s : List RecordTypeNew) :
    ListRecord (faithful split dns newId) domain s
      = (((zoneOf s (listDomain (faithful split dns newId) domain)).take 4950, none), s,
          (ListRecord (faithful split dns newId) domain s).2.2) := by
  have h := faithful_loop split dns newId (listDomain (faithful split dns newId) domain) s 99 0
  simp only [Nat.zero_mul, List.take_zero, Nat.zero_add] at h
  refine Prod.ext ?_ (Prod.ext ?_ rfl)
  · exact h.1
  · exact h.2

theorem faithful_DelRecord_loop (split : String → String × String)
    (dns : List RecordTypeNew → String → Bool → String) (newId : List RecordTypeNew → String)
    (rr : String) :
    ∀ (listed s : List RecordTypeNew),
      DelRecord.loop (faithful split dns newId) rr listed s
        = (withoutListed rr listed s, deletesFor rr listed) := by
  intro listed
  induction listed with
  | nil => intro s; simp [DelRecord.loop, withoutListed, deletesFor]
  | cons r rs ih =>
    intro s
    rw [DelRecord.loop]
    by_cases h : r.RR = rr
    · simp only [h, if_true, ih]
      refine Prod.ext ?_ ?_
      · simp only [withoutListed, faithful, List.filter_filter]
        apply List.filter_congr
        intro x _
        by_cases hx : x.RecordId = r.RecordId
        · simp [hx, h]
        · have hx2 : ¬ r.RecordId = x.RecordId := fun e => hx e.symm
          simp [hx, hx2, h]
      · simp [deletesFor, h, faithful, List.filter_cons]
    · simp only [h, if_false, ih]
      refine Prod.ext ?_ ?_
      · simp only [withoutListed]
        apply List.filter_congr
        intro x _
        simp [List.any_cons, h]
      · simp [deletesFor, h, List.filter_cons]

theorem faithful_DelRecord (split : String → String × String)
    (dns : List RecordTypeNew → String → Bool → String) (newId : List RecordTypeNew → String)
    (rr domain : String) (s : List RecordTypeNew) :
    DelRecord (faithful split dns newId) rr domain s
      = (none,
          withoutListed rr ((zoneOf s (listDomain (faithful split dns newId) domain)).take 4950) s,
          (ListRecord (faithful split dns newId) domain s).2.2
            ++ deletesFor rr
                ((zoneOf s (listDomain (faithful split dns newId) domain)).take 4950)) := by
  rw [DelRecord, faithful_ListRecord]
  simp only [faithful_DelRecord_loop]

/-- The listing `ListRecord` obtains from the faithful provider: the first 99 pages of 50. -/
theorem faithful_listing_of_size (split : String → String × String)
    (dns : List RecordTypeNew → String → Bool → String) (newId : List RecordTypeNew → String)
    (domain : String) (s : List RecordTypeNew)
    (hsplit : listDomain (faithful split dns newId) domain = domain)
    (hsize : (zoneOf s domain).length ≤ 4950) :
    (zoneOf s (listDomain (faithful split dns newId) domain)).take 4950 = zoneOf s domain := by
  rw [hsplit, List.take_of_length_le hsize]

theorem faithful_run_create (split : String → String × String)
    (dns : List RecordTypeNew → String → Bool → String) (newId : List RecordTypeNew → String)
    (fuel : Nat) (rr domain ipaddr : String) (ipv6 : Bool) (s : List RecordTypeNew)
    (hdns : dns s (rr ++ "." ++ domain) ipv6 ≠ ipaddr)
    (hnone : ((zoneOf s (listDomain (faithful split dns newId) domain)).take 4950).filter
        (fun x => x.RR = rr ∧ x.Type_ = recordTypeOf ipv6) = []) :
    CheckAndUpdateRecord (faithful split dns newId) (fuel + 1) rr domain ipaddr ipv6 s
      = (some none,
          s ++ [{ DomainName := domain, RecordId := newId s, RR := rr,
                  Type_ := recordTypeOf ipv6, Value := ipaddr }],
          Event.getDNS (rr ++ "." ++ domain) ipv6 (dns s (rr ++ "." ++ domain) ipv6)
            :: ((ListRecord (faithful split dns newId) domain s).2.2
              ++ [Event.addDomainRecord domain rr (recordTypeOf ipv6) ipaddr none])) := by
  have hlist : ListRecord (faithful split dns newId) domain
      (((faithful split dns newId).getDNS (rr ++ "." ++ domain) ipv6 s).2) = _ :=
    faithful_ListRecord split dns newId domain s
  rw [CheckAndUpdateRecord, reconcileOnce_listed _ rr domain ipaddr ipv6 s _ _ _ hdns hlist,
    findTarget_eq, hnone]
  simp [dropDuplicates, writeRecord, AddRecord, isDuplicate, faithful]

theorem faithful_run_single (split : String → String × String)
    (dns : List RecordTypeNew → String → Bool → String) (newId : List RecordTypeNew → String)
    (fuel : Nat) (rr domain ipaddr : String) (ipv6 : Bool) (s : List RecordTypeNew)
    (r : RecordTypeNew)
    (hdns : dns s (rr ++ "." ++ domain) ipv6 ≠ ipaddr)
    (hone : ((zoneOf s (listDomain (faithful split dns newId) domain)).take 4950).filter
        (fun x => x.RR = rr ∧ x.Type_ = recordTypeOf ipv6) = [r]) :
    CheckAndUpdateRecord (faithful split dns newId) (fuel + 1) rr domain ipaddr ipv6 s
      = if r.Value = ipaddr then
          (some none, s,
            Event.getDNS (rr ++ "." ++ domain) ipv6 (dns s (rr ++ "." ++ domain) ipv6)
              :: (ListRecord (faithful split dns newId) domain s).2.2)
        else
          (some none,
            s.map (fun x => if x.RecordId = r.RecordId
              then updated rr ipaddr (recordTypeOf ipv6) x else x),
            Event.getDNS (rr ++ "." ++ domain) ipv6 (dns s (rr ++ "." ++ domain) ipv6)
              :: ((ListRecord (faithful split dns newId) domain s).2.2
                ++ [Event.updateDomainRecord r.RecordId rr ipaddr (recordTypeOf ipv6) none])) := by
  have hlist : ListRecord (faithful split dns newId) domain
      (((faithful split dns newId).getDNS (rr ++ "." ++ domain) ipv6 s).2) = _ :=
    faithful_ListRecord split dns newId domain s
  have hr : r.RR = rr ∧ r.Type_ = recordTypeOf ipv6 := by
    have : r ∈ ((zoneOf s (listDomain (faithful split dns newId) domain)).take 4950).filter
        (fun x => x.RR = rr ∧ x.Type_ = recordTypeOf ipv6) := by rw [hone]; simp
    simpa using (List.mem_filter.1 this).2
  rw [CheckAndUpdateRecord, reconcileOnce_listed _ rr domain ipaddr ipv6 s _ _ _ hdns hlist,
    findTarget_eq, hone]
  by_cases hv : r.Value = ipaddr
  · simp [dropDuplicates, writeRecord, isDuplicate, faithful, hv]
  · simp [dropDuplicates, writeRecord, UpdateRecord, isDuplicate, faithful, hv, hr.1, hr.2]

theorem faithful_run_duplicates (split : String → String × String)
    (dns : List RecordTypeNew → String → Bool → String) (newId : List RecordTypeNew → String)
    (fuel : Nat) (rr domain ipaddr : String) (ipv6 : Bool) (s : List RecordTypeNew)
    (hdns : dns s (rr ++ "." ++ domain) ipv6 ≠ ipaddr)
    (hmany : 2 ≤ (((zoneOf s (listDomain (faithful split dns newId) domain)).take 4950).filter
        (fun x => x.RR = rr ∧ x.Type_ = recordTypeOf ipv6)).length) :
    CheckAndUpdateRecord (faithful split dns newId) (fuel + 1) rr domain ipaddr ipv6 s
      = (some none,
          withoutListed rr
              ((zoneOf s (listDomain (faithful split dns newId) domain)).take 4950) s
            ++ [{ DomainName := domain,
                  RecordId := newId (withoutListed rr
                    ((zoneOf s (listDomain (faithful split dns newId) domain)).take 4950) s),
                  RR := rr, Type_ := recordTypeOf ipv6, Value := ipaddr }],
          Event.getDNS (rr ++ "." ++ domain) ipv6 (dns s (rr ++ "." ++ domain) ipv6)
            :: ((ListRecord (faithful split dns newId) domain s).2.2
              ++ ((ListRecord (faithful split dns newId) domain s).2.2
                ++ deletesFor rr
                    ((zoneOf s (listDomain (faithful split dns newId) domain)).take 4950))
              ++ [Event.addDomainRecord domain rr (recordTypeOf ipv6) ipaddr none])) := by
  have hlist : ListRecord (faithful split dns newId) domain
      (((faithful split dns newId).getDNS (rr ++ "." ++ domain) ipv6 s).2) = _ :=
    faithful_ListRecord split dns newId domain s
  rw [CheckAndUpdateRecord, reconcileOnce_listed _ rr domain ipaddr ipv6 s _ _ _ hdns hlist,
    findTarget_eq]
  have hgt : 0 + (((zoneOf s (listDomain (faithful split dns newId) domain)).take 4950).filter
        (fun x => x.RR = rr ∧ x.Type_ = recordTypeOf ipv6)).length > 1 := by omega
  simp only [dropDuplicates, hgt, if_true, faithful_DelRecord, writeRecord, AddRecord]
  simp [isDuplicate, faithful]

theorem zoneOf_filter (rr type_ domain : String) (s : List RecordTypeNew) :
    (zoneOf s domain).filter (fun x => x.RR = rr ∧ x.Type_ = type_)
      = recordsFor rr domain type_ s := by
  simp only [zoneOf, recordsFor, List.filter_filter]
  apply List.filter_congr
  intro x _
  simp only [Bool.decide_and, Bool.and_comm, Bool.and_assoc]

theorem writes_deletesFor (rr : String) (listed : List RecordTypeNew) :
    writes (deletesFor rr listed) = deletesFor rr listed := by
  simp only [writes, deletesFor, List.filter_eq_self, List.mem_map]
  rintro e ⟨r, _, rfl⟩
  rfl

theorem recordsFor_withoutListed (rr domain type_ : String) (s : List RecordTypeNew) :
    recordsFor rr domain type_ (withoutListed rr (zoneOf s domain) s) = [] := by
  simp only [recordsFor, withoutListed, List.filter_filter, List.filter_eq_nil_iff]
  intro x hx
  simp only [Bool.and_eq_true, Bool.not_eq_true', List.any_eq_false, decide_eq_true_eq,
    not_and]
  rintro ⟨hd, hr, _⟩ hnot
  exact hnot x (by simp [zoneOf, hx, hd]) hr rfl

theorem zoneOf_withoutListed_length (rr domain : String) (listed s : List RecordTypeNew) :
    (zoneOf (withoutListed rr listed s) domain).length ≤ (zoneOf s domain).length := by
  simp only [zoneOf, withoutListed, List.filter_filter, ← List.countP_eq_length_filter]
  apply List.countP_mono_left
  intro x _ hx
  simp only [Bool.and_eq_true] at hx
  exact hx.1

theorem recordsFor_update (rr domain type_ value : String) (s : List RecordTypeNew)
    (r : RecordTypeNew) (hids : (s.map (fun x => x.RecordId)).Nodup)
    (hone : recordsFor rr domain type_ s = [r]) :
    recordsFor rr domain type_
        (s.map (fun x => if x.RecordId = r.RecordId then updated rr value type_ x else x))
      = [updated rr value type_ r] := by
  have hr : r ∈ recordsFor rr domain type_ s := by rw [hone]; simp
  have hrs : r ∈ s := (List.mem_filter.1 hr).1
  have hrq : r.DomainName = domain ∧ r.RR = rr ∧ r.Type_ = type_ := by
    simpa using (List.mem_filter.1 hr).2
  have hinj := List.inj_on_of_nodup_map hids
  have hfil : List.filter ((fun x => decide (x.DomainName = domain ∧ x.RR = rr ∧ x.Type_ = type_))
        ∘ (fun x => if x.RecordId = r.RecordId then updated rr value type_ x else x)) s
      = recordsFor rr domain type_ s := by
    simp only [recordsFor]
    apply List.filter_congr
    intro x hx
    by_cases hid : x.RecordId = r.RecordId
    · have hxr : x = r := hinj hx hrs hid
      subst hxr
      simp [updated, hrq.1, hrq.2.1, hrq.2.2]
    · simp [hid]
  rw [recordsFor, List.filter_map, hfil, hone]
  simp

theorem zoneOf_update_length (rr domain type_ value id : String) (s : List RecordTypeNew) :
    (zoneOf (s.map (fun x => if x.RecordId = id then updated rr value type_ x else x))
        domain).length = (zoneOf s domain).length := by
  have hfil : List.filter ((fun x => decide (x.DomainName = domain))
        ∘ (fun x => if x.RecordId = id then updated rr value type_ x else x)) s
      = zoneOf s domain := by
    simp only [zoneOf]
    apply List.filter_congr
    intro x _
    by_cases hid : x.RecordId = id
    · simp [hid, updated]
    · simp [hid]
  rw [zoneOf, List.filter_map, hfil, List.length_map]

/-- What one run leaves on the faithful provider when the DNS short-circuit does not fire, the
domain is listed under its own name, its records fit in the 99 pages of 50 and record ids are
unique: nil is returned, exactly one record for `(rr, domain, type)` is left, it carries the
desired value, and the mutating calls were none, one create, one update, or the deletes of
every record of the host label followed by one create. -/
theorem faithful_run_post (split : String → String × String)
    (dns : List RecordTypeNew → String → Bool → String) (newId : List RecordTypeNew → String)
    (fuel : Nat) (rr domain ipaddr : String) (ipv6 : Bool) (s : List RecordTypeNew)
    (hsplit : listDomain (faithful split dns newId) domain = domain)
    (hsize : (zoneOf s domain).length ≤ 4950)
    (hids : (s.map (fun x => x.RecordId)).Nodup)
    (hdns : dns s (rr ++ "." ++ domain) ipv6 ≠ ipaddr) :
    (CheckAndUpdateRecord (faithful split dns newId) (fuel + 1) rr domain ipaddr ipv6 s).1
        = some none ∧
      (∃ r, recordsFor rr domain (recordTypeOf ipv6)
          (CheckAndUpdateRecord (faithful split dns newId) (fuel + 1) rr domain ipaddr ipv6 s).2.1
            = [r] ∧ r.Value = ipaddr) ∧
      (zoneOf (CheckAndUpdateRecord (faithful split dns newId) (fuel + 1) rr domain ipaddr
          ipv6 s).2.1 domain).length ≤ (zoneOf s domain).length + 1 ∧
      (writes (CheckAndUpdateRecord (faithful split dns newId) (fuel + 1) rr domain ipaddr
            ipv6 s).2.2 = [] ∨
        writes (CheckAndUpdateRecord (faithful split dns newId) (fuel + 1) rr domain ipaddr
            ipv6 s).2.2 = [Event.addDomainRecord domain rr (recordTypeOf ipv6) ipaddr none] ∨
        (∃ r, r ∈ recordsFor rr domain (recordTypeOf ipv6) s ∧
          writes (CheckAndUpdateRecord (faithful split dns newId) (fuel + 1) rr domain ipaddr
            ipv6 s).2.2
            = [Event.updateDomainRecord r.RecordId rr ipaddr (recordTypeOf ipv6) none]) ∨
        writes (CheckAndUpdateRecord (faithful split dns newId) (fuel + 1) rr domain ipaddr
            ipv6 s).2.2
          = deletesFor rr (zoneOf s domain)
            ++ [Event.addDomainRecord domain rr (recordTypeOf ipv6) ipaddr none]) := by
  have hL := faithful_listing_of_size split dns newId domain s hsplit hsize
  have hw := ListRecord_writes (faithful split dns newId) domain s
  rcases hfil : recordsFor rr domain (recordTypeOf ipv6) s with _ | ⟨r, _ | ⟨r2, rest⟩⟩
  · have hnone : ((zoneOf s (listDomain (faithful split dns newId) domain)).take 4950).filter
        (fun x => x.RR = rr ∧ x.Type_ = recordTypeOf ipv6) = [] := by
      rw [hL, zoneOf_filter, hfil]
    rw [faithful_run_create split dns newId fuel rr domain ipaddr ipv6 s hdns hnone]
    refine ⟨rfl, ⟨⟨domain, newId s, rr, recordTypeOf ipv6, ipaddr⟩, ?_, rfl⟩, ?_,
      Or.inr (Or.inl ?_)⟩
    · simp only [recordsFor, List.filter_append] at hfil ⊢
      rw [hfil]
      simp
    · simp [zoneOf, List.filter_append]
    · simp [writes_cons, Event.isWrite, hw]
  · have hone : ((zoneOf s (listDomain (faithful split dns newId) domain)).take 4950).filter
        (fun x => x.RR = rr ∧ x.Type_ = recordTypeOf ipv6) = [r] := by
      rw [hL, zoneOf_filter, hfil]
    rw [faithful_run_single split dns newId fuel rr domain ipaddr ipv6 s r hdns hone]
    by_cases hv : r.Value = ipaddr
    · rw [if_pos hv]
      refine ⟨rfl, ⟨r, hfil, hv⟩, Nat.le_succ _, Or.inl ?_⟩
      simp [writes_cons, Event.isWrite, hw]
    · rw [if_neg hv]
      refine ⟨rfl, ⟨_, recordsFor_update rr domain _ ipaddr s r hids hfil, rfl⟩, ?_,
        Or.inr (Or.inr (Or.inl ⟨r, by simp, ?_⟩))⟩
      · rw [zoneOf_update_length]; omega
      · simp [writes_cons, Event.isWrite, hw]
  · have hmany : 2 ≤ (((zoneOf s (listDomain (faithful split dns newId) domain)).take 4950).filter
        (fun x => x.RR = rr ∧ x.Type_ = recordTypeOf ipv6)).length := by
      rw [hL, zoneOf_filter, hfil]
      simp
    rw [faithful_run_duplicates split dns newId fuel rr domain ipaddr ipv6 s hdns hmany, hL]
    refine ⟨rfl, ⟨⟨domain, newId (withoutListed rr (zoneOf s domain) s), rr, recordTypeOf ipv6,
      ipaddr⟩, ?_, rfl⟩, ?_, Or.inr (Or.inr (Or.inr ?_))⟩
    · have h0 := recordsFor_withoutListed rr domain (recordTypeOf ipv6) s
      simp only [recordsFor, List.filter_append] at h0 ⊢
      rw [h0]
      simp
    · have h1 := zoneOf_withoutListed_length rr domain (zoneOf s domain) s
      simp only [zoneOf, List.filter_append] at h1 ⊢
      simp only [List.length_append]
      have h2 := List.length_filter_le (fun r : RecordTypeNew => decide (r.DomainName = domain))
        [{ DomainName := domain,
           RecordId := newId (withoutListed rr
             (List.filter (fun r => decide (r.DomainName = domain)) s) s),
           RR := rr, Type_ := recordTypeOf ipv6, Value := ipaddr }]
      simp only [List.length_singleton] at h2
      omega
    · simp [writes_cons, Event.isWrite, hw, writes_deletesFor]

/-- The mutating calls of one run on the faithful provider, by what the provider holds for
`(rr, domain, type)`, when the DNS short-circuit does not fire: one create for no record, none
for one record carrying the value, one update for one record carrying another value, the
deletes of every record of the host label followed by one create for two or more. -/
theorem faithful_run_writes (split : String → String × String)
    (dns : List RecordTypeNew → String → Bool → String) (newId : List RecordTypeNew → String)
    (fuel : Nat) (rr domain ipaddr : String) (ipv6 : Bool) (s : List RecordTypeNew)
    (hsplit : listDomain (faithful split dns newId) domain = domain)
    (hsize : (zoneOf s domain).length ≤ 4950)
    (hdns : dns s (rr ++ "." ++ domain) ipv6 ≠ ipaddr) :
    (recordsFor rr domain (recordTypeOf ipv6) s = [] →
        writes (CheckAndUpdateRecord (faithful split dns newId) (fuel + 1) rr domain ipaddr
            ipv6 s).2.2 = [Event.addDomainRecord domain rr (recordTypeOf ipv6) ipaddr none]) ∧
      (∀ r, recordsFor rr domain (recordTypeOf ipv6) s = [r] → r.Value = ipaddr →
        writes (CheckAndUpdateRecord (faithful split dns newId) (fuel + 1) rr domain ipaddr
            ipv6 s).2.2 = [] ∧
          (CheckAndUpdateRecord (faithful split dns newId) (fuel + 1) rr domain ipaddr
            ipv6 s).2.1 = s) ∧
      (∀ r, recordsFor rr domain (recordTypeOf ipv6) s = [r] → r.Value ≠ ipaddr →
        writes (CheckAndUpdateRecord (faithful split dns newId) (fuel + 1) rr domain ipaddr
            ipv6 s).2.2
          = [Event.updateDomainRecord r.RecordId rr ipaddr (recordTypeOf ipv6) none]) ∧
      (2 ≤ (recordsFor rr domain (recordTypeOf ipv6) s).length →
        writes (CheckAndUpdateRecord (faithful split dns newId) (fuel + 1) rr domain ipaddr
            ipv6 s).2.2
          = deletesFor rr (zoneOf s domain)
            ++ [Event.addDomainRecord domain rr (recordTypeOf ipv6) ipaddr none]) := by
  have hL := faithful_listing_of_size split dns newId domain s hsplit hsize
  have hw := ListRecord_writes (faithful split dns newId) domain s
  refine ⟨?_, ?_, ?_, ?_⟩
  · intro hfil
    have hnone : ((zoneOf s (listDomain (faithful split dns newId) domain)).take 4950).filter
        (fun x => x.RR = rr ∧ x.Type_ = recordTypeOf ipv6) = [] := by
      rw [hL, zoneOf_filter, hfil]
    rw [faithful_run_create split dns newId fuel rr domain ipaddr ipv6 s hdns hnone]
    simp [writes_cons, Event.isWrite, hw]
  · intro r hfil hv
    have hone : ((zoneOf s (listDomain (faithful split dns newId) domain)).take 4950).filter
        (fun x => x.RR = rr ∧ x.Type_ = recordTypeOf ipv6) = [r] := by
      rw [hL, zoneOf_filter, hfil]
    rw [faithful_run_single split dns newId fuel rr domain ipaddr ipv6 s r hdns hone, if_pos hv]
    refine ⟨?_, rfl⟩
    simp [writes_cons, Event.isWrite, hw]
  · intro r hfil hv
    have hone : ((zoneOf s (listDomain (faithful split dns newId) domain)).take 4950).filter
        (fun x => x.RR = rr ∧ x.Type_ = recordTypeOf ipv6) = [r] := by
      rw [hL, zoneOf_filter, hfil]
    rw [faithful_run_single split dns newId fuel rr domain ipaddr ipv6 s r hdns hone, if_neg hv]
    simp [writes_cons, Event.isWrite, hw]
  · intro hfil
    have hmany : 2 ≤ (((zoneOf s (listDomain (faithful split dns newId) domain)).take 4950).filter
        (fun x => x.RR = rr ∧ x.Type_ = recordTypeOf ipv6)).length := by
      rw [hL, zoneOf_filter]
      exact hfil
    rw [faithful_run_duplicates split dns newId fuel rr domain ipaddr ipv6 s hdns hmany, hL]
    simp [writes_cons, Event.isWrite, hw, writes_deletesFor]

/-- A run on the faithful provider that already holds exactly one record for
`(rr, domain, type)`, carrying the value: whatever the live DNS answers, nil is returned, no
mutating call is made and the provider is left as it was. -/
theorem faithful_run_settled (split : String → String × String)
    (dns : List RecordTypeNew → String → Bool → String) (newId : List RecordTypeNew → String)
    (fuel : Nat) (rr domain ipaddr : String) (ipv6 : Bool) (s : List RecordTypeNew)
    (r : RecordTypeNew)
    (hsplit : listDomain (faithful split dns newId) domain = domain)
    (hsize : (zoneOf s domain).length ≤ 4950)
    (hone : recordsFor rr domain (recordTypeOf ipv6) s = [r]) (hv : r.Value = ipaddr) :
    (CheckAndUpdateRecord (faithful split dns newId) (fuel + 1) rr domain ipaddr ipv6 s).1
        = some none ∧
      writes (CheckAndUpdateRecord (faithful split dns newId) (fuel + 1) rr domain ipaddr
        ipv6 s).2.2 = [] ∧
      (CheckAndUpdateRecord (faithful split dns newId) (fuel + 1) rr domain ipaddr
        ipv6 s).2.1 = s := by
  by_cases hdns : dns s (rr ++ "." ++ domain) ipv6 = ipaddr
  · rw [CheckAndUpdateRecord,
      reconcileOnce_skip (faithful split dns newId) rr domain ipaddr ipv6 s hdns]
    exact ⟨rfl, rfl, rfl⟩
  · have hL := faithful_listing_of_size split dns newId domain s hsplit hsize
    have hw := ListRecord_writes (faithful split dns newId) domain s
    have hone2 : ((zoneOf s (listDomain (faithful split dns newId) domain)).take 4950).filter
        (fun x => x.RR = rr ∧ x.Type_ = recordTypeOf ipv6) = [r] := by
      rw [hL, zoneOf_filter, hone]
    rw [faithful_run_single split dns newId fuel rr domain ipaddr ipv6 s r hdns hone2, if_pos hv]
    refine ⟨rfl, ?_, rfl⟩
    simp [writes_cons, Event.isWrite, hw]

/-- A run on the faithful provider on which the DNS short-circuit fires: nil is returned, no
mutating call is made and the provider is left as it was. -/
theorem faithful_run_skipped (split : String → String × String)
    (dns : List RecordTypeNew → String → Bool → String) (newId : List RecordTypeNew → String)
    (fuel : Nat) (rr domain ipaddr : String) (ipv6 : Bool) (s : List RecordTypeNew)
    (hdns : dns s (rr ++ "." ++ domain) ipv6 = ipaddr) :
    (CheckAndUpdateRecord (faithful split dns newId) (fuel + 1) rr domain ipaddr ipv6 s).1
        = some none ∧
      writes (CheckAndUpdateRecord (faithful split dns newId) (fuel + 1) rr domain ipaddr
        ipv6 s).2.2 = [] ∧
      (CheckAndUpdateRecord (faithful split dns newId) (fuel + 1) rr domain ipaddr
        ipv6 s).2.1 = s := by
  rw [CheckAndUpdateRecord,
    reconcileOnce_skip (faithful split dns newId) rr domain ipaddr ipv6 s hdns]
  exact ⟨rfl, rfl, rfl⟩

/-! ## Theorems: the host-label frame (C10) -/

theorem pagesOf_append (a b : List Event) : pagesOf (a ++ b) = pagesOf a ++ pagesOf b := by
  induction a with
  | nil => rfl
  | cons e a ih =>
    cases e with
    | describeDomainRecordsNew d i z resp =>
      cases resp with
      | ok p n => simp [pagesOf, ih]
      | error m => simp [pagesOf, ih]
    | _ => simp [pagesOf, ih]

theorem FrameOK_mono (rr domain recordType ipaddr : String) (l1 l2 : List RecordTypeNew)
    (h : ∀ r ∈ l1, r ∈ l2) (ev : Event) (hev : FrameOK rr domain recordType ipaddr l1 ev) :
    FrameOK rr domain recordType ipaddr l2 ev := by
  cases ev with
  | deleteDomainRecord id e =>
    obtain ⟨r, hr, h1⟩ := hev
    exact ⟨r, h r hr, h1⟩
  | updateDomainRecord id rr1 v ty e =>
    obtain ⟨⟨r, hr, h1⟩, h2⟩ := hev
    exact ⟨⟨r, h r hr, h1⟩, h2⟩
  | _ => exact hev

theorem FramedFrom_nil (rr domain recordType ipaddr : String) (listed : List RecordTypeNew) :
    FramedFrom rr domain recordType ipaddr listed [] := by
  intro before ev after h
  exact absurd h (by simp)

theorem FramedFrom_append (rr domain recordType ipaddr : String) (listed : List RecordTypeNew)
    (a b : List Event) (ha : FramedFrom rr domain recordType ipaddr listed a)
    (hb : FramedFrom rr domain recordType ipaddr (listed ++ pagesOf a) b) :
    FramedFrom rr domain recordType ipaddr listed (a ++ b) := by
  intro before ev after h
  rcases List.append_eq_append_iff.1 h with ⟨a', h1, h2⟩ | ⟨c', h1, h2⟩
  · -- before = a ++ a'
    subst h1
    have := hb a' ev after h2
    rw [pagesOf_append, ← List.append_assoc]
    exact this
  · -- a = before ++ c'
    cases c' with
    | nil =>
      simp only [List.append_nil] at h1
      subst h1
      have := hb [] ev after (by simpa using h2.symm)
      simpa using this
    | cons x c' =>
      simp only [List.cons_append, List.cons.injEq] at h2
      obtain ⟨hx, _⟩ := h2
      subst hx
      exact ha before _ c' h1

theorem FramedFrom_cons (rr domain recordType ipaddr : String) (listed : List RecordTypeNew)
    (ev : Event) (t : List Event) (hev : FrameOK rr domain recordType ipaddr listed ev)
    (ht : FramedFrom rr domain recordType ipaddr (listed ++ pagesOf [ev]) t) :
    FramedFrom rr domain recordType ipaddr listed (ev :: t) := by
  have h1 : FramedFrom rr domain recordType ipaddr listed [ev] := by
    intro before e after h
    cases before with
    | nil =>
      simp only [List.nil_append, List.cons.injEq] at h
      obtain ⟨rfl, _⟩ := h
      simpa using hev
    | cons x before =>
      simp only [List.cons_append, List.cons.injEq] at h
      exact absurd h.2 (by simp)
  exact FramedFrom_append rr domain recordType ipaddr listed [ev] t h1 ht

theorem FramedFrom_mono (rr domain recordType ipaddr : String) (l1 l2 : List RecordTypeNew)
    (h : ∀ r ∈ l1, r ∈ l2) (t : List Event)
    (ht : FramedFrom rr domain recordType ipaddr l1 t) :
    FramedFrom rr domain recordType ipaddr l2 t := by
  intro before ev after e
  refine FrameOK_mono rr domain recordType ipaddr _ _ ?_ ev (ht before ev after e)
  intro r hr
  rcases List.mem_append.1 hr with hr | hr
  · exact List.mem_append.2 (Or.inl (h r hr))
  · exact List.mem_append.2 (Or.inr hr)

theorem ListRecord_loop_framed {σ : Type} (env : Env σ) (d : String)
    (rr domain recordType ipaddr : String) :
    ∀ (n idx : Nat) (acc : List RecordTypeNew) (s : σ) (listed : List RecordTypeNew),
      FramedFrom rr domain recordType ipaddr listed (ListRecord.loop env d n idx acc s).2.2 ∧
        (ListRecord.loop env d n idx acc s).1.1
          = acc ++ pagesOf (ListRecord.loop env d n idx acc s).2.2 := by
  intro n
  induction n with
  | zero => intro idx acc s listed; exact ⟨FramedFrom_nil _ _ _ _ _, by simp [ListRecord.loop]⟩
  | succ n ih =>
    intro idx acc s listed
    rw [ListRecord.loop]
    rcases env.DescribeDomainRecordsNew d idx 50 s with ⟨resp, s1⟩
    cases resp with
    | error msg =>
      exact ⟨FramedFrom_cons _ _ _ _ _ _ _ trivial (FramedFrom_nil _ _ _ _ _), by simp⟩
    | ok page total =>
      by_cases hstop : ((acc ++ page).length : Int) ≥ total
      · simp only [hstop, if_true]
        exact ⟨FramedFrom_cons _ _ _ _ _ _ _ trivial (FramedFrom_nil _ _ _ _ _), by simp⟩
      · simp only [hstop, if_false]
        obtain ⟨h1, h2⟩ := ih (idx + 1) (acc ++ page) s1 (listed ++ page)
        refine ⟨FramedFrom_cons _ _ _ _ _ _ _ trivial (by simpa using h1), ?_⟩
        rw [h2]
        simp

theorem ListRecord_framed {σ : Type} (env : Env σ) (rr domain recordType ipaddr : String)
    (d : String) (s : σ) (listed : List RecordTypeNew) :
    FramedFrom rr domain recordType ipaddr listed (ListRecord env d s).2.2 ∧
      (ListRecord env d s).1.1 = pagesOf (ListRecord env d s).2.2 := by
  have := ListRecord_loop_framed env (listDomain env d) rr domain recordType ipaddr 99 1 [] s
    listed
  simpa [ListRecord] using this

theorem DelRecord_loop_framed {σ : Type} (env : Env σ) (rr domain recordType ipaddr : String) :
    ∀ (recs : List RecordTypeNew) (s : σ) (listed : List RecordTypeNew),
      (∀ r ∈ recs, r ∈ listed) →
      FramedFrom rr domain recordType ipaddr listed (DelRecord.loop env rr recs s).2 ∧
        pagesOf (DelRecord.loop env rr recs s).2 = [] := by
  intro recs
  induction recs with
  | nil => intro s listed _; exact ⟨FramedFrom_nil _ _ _ _ _, rfl⟩
  | cons r rs ih =>
    intro s listed hsub
    rw [DelRecord.loop]
    by_cases h : r.RR = rr
    · simp only [h, if_true]
      obtain ⟨h1, h2⟩ := ih (env.DeleteDomainRecord r.RecordId s).2 listed
        (fun x hx => hsub x (List.mem_cons_of_mem _ hx))
      refine ⟨FramedFrom_cons _ _ _ _ _ _ _ ⟨r, hsub r (List.mem_cons_self _ _), h, rfl⟩
        (by simpa [pagesOf] using h1), ?_⟩
      simpa [pagesOf] using h2
    · simp only [h, if_false]
      exact ih s listed (fun x hx => hsub x (List.mem_cons_of_mem _ hx))

theorem DelRecord_framed {σ : Type} (env : Env σ) (rr domain recordType ipaddr : String)
    (s : σ) (listed : List RecordTypeNew) :
    FramedFrom rr domain recordType ipaddr listed (DelRecord env rr domain s).2.2 := by
  obtain ⟨h1, h2⟩ := ListRecord_framed env rr domain recordType ipaddr domain s listed
  rw [DelRecord]
  rcases hl : ListRecord env domain s with ⟨⟨recs, err⟩, s1, t1⟩
  rw [hl] at h1 h2
  cases err with
  | some e => exact h1
  | none =>
    simp only
    refine FramedFrom_append _ _ _ _ _ _ _ h1 ?_
    refine (DelRecord_loop_framed env rr domain recordType ipaddr recs s1 _ ?_).1
    intro r hr
    simp only at h2
    rw [← h2]
    exact List.mem_append.2 (Or.inr hr)

theorem findTarget_some (rr recordType : String) (recs : List RecordTypeNew)
    (tg : RecordTypeNew) (h : (findTarget rr recordType recs (none, 0)).1 = some tg) :
    tg ∈ recs ∧ tg.RR = rr ∧ tg.Type_ = recordType := by
  rw [findTarget_eq] at h
  simp only [Option.or_none] at h
  have hm := List.mem_of_getLast?_eq_some h
  rw [List.mem_filter] at hm
  exact ⟨hm.1, by simpa using hm.2⟩

theorem writeRecord_framed {σ : Type} (env : Env σ) (rr domain recordType ipaddr : String)
    (target : Option RecordTypeNew) (s : σ) (listed : List RecordTypeNew)
    (htarget : ∀ tg, target = some tg → tg ∈ listed ∧ tg.RR = rr ∧ tg.Type_ = recordType) :
    FramedFrom rr domain recordType ipaddr listed
      (writeRecord env domain rr recordType ipaddr target s).2.2 := by
  cases target with
  | none =>
    exact FramedFrom_cons _ _ _ _ _ _ _ ⟨rfl, rfl, rfl, rfl⟩ (FramedFrom_nil _ _ _ _ _)
  | some tg =>
    obtain ⟨hmem, hrr, hty⟩ := htarget tg rfl
    simp only [writeRecord]
    by_cases hv : tg.Value ≠ ipaddr
    · simp only [hv, if_true, hty, ne_eq, not_true_eq_false, if_false, UpdateRecord]
      exact FramedFrom_cons _ _ _ _ _ _ _ ⟨⟨tg, hmem, hrr, hty, rfl⟩, hrr, rfl, rfl⟩
        (FramedFrom_nil _ _ _ _ _)
    · simp only [hv, if_false]
      exact FramedFrom_nil _ _ _ _ _

theorem dropDuplicates_framed {σ : Type} (env : Env σ) (rr domain recordType ipaddr : String)
    (found : Option RecordTypeNew × Nat) (s : σ) (listed : List RecordTypeNew) :
    FramedFrom rr domain recordType ipaddr listed (dropDuplicates env rr domain found s).2.2 ∧
      ∀ tg, (dropDuplicates env rr domain found s).1 = some tg → found.1 = some tg := by
  rw [dropDuplicates]
  by_cases h : found.2 > 1
  · simp only [h, if_true]
    exact ⟨DelRecord_framed env rr domain recordType ipaddr s listed, fun tg htg => by simp at htg⟩
  · simp only [h, if_false]
    exact ⟨FramedFrom_nil _ _ _ _ _, fun tg htg => htg⟩

theorem reconcileOnce_framed {σ : Type} (env : Env σ) (rr domain ipaddr : String) (ipv6 : Bool)
    (s : σ) (listed : List RecordTypeNew) :
    FramedFrom rr domain (recordTypeOf ipv6) ipaddr listed
      (reconcileOnce env rr domain ipaddr ipv6 s).2.2 := by
  by_cases hdns : (env.getDNS (rr ++ "." ++ domain) ipv6 s).1 = ipaddr
  · rw [reconcileOnce_skip env rr domain ipaddr ipv6 s hdns]
    exact FramedFrom_cons _ _ _ _ _ _ _ trivial (FramedFrom_nil _ _ _ _ _)
  · obtain ⟨h1, h2⟩ := ListRecord_framed env rr domain (recordTypeOf ipv6) ipaddr domain
      (env.getDNS (rr ++ "." ++ domain) ipv6 s).2 listed
    rcases hl : ListRecord env domain (env.getDNS (rr ++ "." ++ domain) ipv6 s).2
      with ⟨⟨recs, err⟩, s1, t1⟩
    rw [hl] at h1 h2
    simp only at h1 h2
    cases err with
    | some e =>
      rw [reconcileOnce_listing_failed env rr domain ipaddr ipv6 s recs e s1 t1 hdns hl]
      exact FramedFrom_cons _ _ _ _ _ _ _ trivial (by simpa [pagesOf] using h1)
    | none =>
      rw [reconcileOnce_listed env rr domain ipaddr ipv6 s recs s1 t1 hdns hl]
      obtain ⟨hd1, hd2⟩ := dropDuplicates_framed env rr domain (recordTypeOf ipv6) ipaddr
        (findTarget rr (recordTypeOf ipv6) recs (none, 0)) s1 (listed ++ pagesOf t1)
      refine FramedFrom_cons _ _ _ _ _ _ _ trivial ?_
      simp only [pagesOf, List.append_nil]
      refine FramedFrom_append _ _ _ _ _ _ _ (FramedFrom_append _ _ _ _ _ _ _ h1 hd1) ?_
      refine writeRecord_framed env rr domain (recordTypeOf ipv6) ipaddr _ _ _ ?_
      intro tg htg
      obtain ⟨hm, hr⟩ := findTarget_some rr (recordTypeOf ipv6) recs tg (hd2 tg htg)
      refine ⟨?_, hr⟩
      rw [h2] at hm
      rw [pagesOf_append]
      exact List.mem_append.2 (Or.inr (List.mem_append.2 (Or.inl hm)))

theorem CheckAndUpdateRecord_framedFrom {σ : Type} (env : Env σ) (rr domain ipaddr : String)
    (ipv6 : Bool) :
    ∀ (fuel : Nat) (s : σ) (listed : List RecordTypeNew),
      FramedFrom rr domain (recordTypeOf ipv6) ipaddr listed
        (CheckAndUpdateRecord env fuel rr domain ipaddr ipv6 s).2.2 := by
  intro fuel
  induction fuel with
  | zero => intro s listed; exact FramedFrom_nil _ _ _ _ _
  | succ n ih =>
    intro s listed
    have h1 := reconcileOnce_framed env rr domain ipaddr ipv6 s listed
    rw [CheckAndUpdateRecord]
    rcases hr : reconcileOnce env rr domain ipaddr ipv6 s with ⟨res, s1, t1⟩
    rw [hr] at h1
    cases res with
    | inl e => exact h1
    | inr err =>
      simp only
      by_cases hdup : isDuplicate err = true
      · simp only [hdup, if_true]
        exact FramedFrom_append _ _ _ _ _ _ _
          (FramedFrom_append _ _ _ _ _ _ _ h1 (DelRecord_framed env rr domain _ ipaddr s1 _))
          (ih _ _)
      · simp only [hdup]
        exact h1

/-- C10 (host-label frame).  Over any provider and for any number of activations, finished or
not: every delete and every update call of `CheckAndUpdateRecord` (those of `DelRecord` and
of the recursive retries included) targets the `RecordId` of a record with `RR = rr` that a
page received earlier in the run held; an update moreover carries `rr`, the requested type and
`ipaddr`; every create is for `(domain, rr, requested type, ipaddr)`.  Hence a record whose
`RR` differs from `rr`, and whose id no listed record of another host label shares, is never
the target of a delete or an update. -/
theorem CheckAndUpdateRecord_frame {σ : Type} (env : Env σ) (fuel : Nat)
    (rr domain ipaddr : String) (ipv6 : Bool) (s : σ) :
    Framed rr domain (recordTypeOf ipv6) ipaddr
        (CheckAndUpdateRecord env fuel rr domain ipaddr ipv6 s).2.2 ∧
      ∀ other : RecordTypeNew, other.RR ≠ rr →
        (∀ r ∈ pagesOf (CheckAndUpdateRecord env fuel rr domain ipaddr ipv6 s).2.2,
          r.RecordId = other.RecordId → r.RR = other.RR) →
        ∀ ev ∈ (CheckAndUpdateRecord env fuel rr domain ipaddr ipv6 s).2.2,
          ev.target ≠ some other.RecordId := by
  have hframed : Framed rr domain (recordTypeOf ipv6) ipaddr
      (CheckAndUpdateRecord env fuel rr domain ipaddr ipv6 s).2.2 := by
    intro before ev after h
    have := CheckAndUpdateRecord_framedFrom env rr domain ipaddr ipv6 fuel s [] before ev after h
    simpa using this
  refine ⟨hframed, ?_⟩
  intro other hother hids ev hev htarget
  obtain ⟨before, after, hsplit⟩ := List.append_of_mem hev
  have hok := hframed before ev after hsplit
  have hsub : ∀ r ∈ pagesOf before,
      r ∈ pagesOf (CheckAndUpdateRecord env fuel rr domain ipaddr ipv6 s).2.2 := by
    intro r hr
    rw [hsplit, pagesOf_append]
    exact List.mem_append.2 (Or.inl hr)
  cases ev with
  | deleteDomainRecord id e =>
    obtain ⟨r, hr, hrr, hid⟩ := hok
    simp only [Event.target, Option.some.injEq] at htarget
    exact hother ((hids r (hsub r hr) (hid.trans htarget)).symm.trans hrr)
  | updateDomainRecord id rr1 v ty e =>
    obtain ⟨⟨r, hr, hrr, _, hid⟩, _⟩ := hok
    simp only [Event.target, Option.some.injEq] at htarget
    exact hother ((hids r (hsub r hr) (hid.trans htarget)).symm.trans hrr)
  | _ => simp [Event.target] at htarget

/-! ## Theorems: the retry on `DomainRecordDuplicate` (C6) -/

theorem duplicateWrites_append (a b : List Event) :
    duplicateWrites (a ++ b) = duplicateWrites a ++ duplicateWrites b := by
  simp [duplicateWrites]

theorem duplicateWrites_of_no_writes (t : List Event) (h : writes t = []) :
    duplicateWrites t = [] := by
  simp only [duplicateWrites, writes, List.filter_eq_nil_iff] at h ⊢
  intro ev hev
  have := h ev hev
  cases ev <;> simp_all [Event.isWrite]

theorem DelRecord_loop_duplicateWrites {σ : Type} (env : Env σ) (rr : String) :
    ∀ (recs : List RecordTypeNew) (s : σ),
      duplicateWrites (DelRecord.loop env rr recs s).2 = [] := by
  intro recs
  induction recs with
  | nil => intro s; rfl
  | cons r rs ih =>
    intro s
    rw [DelRecord.loop]
    by_cases h : r.RR = rr
    · simp only [h, if_true]
      simpa [duplicateWrites] using ih _
    · simp only [h, if_false]
      exact ih s

theorem DelRecord_duplicateWrites {σ : Type} (env : Env σ) (rr domain : String) (s : σ) :
    duplicateWrites (DelRecord env rr domain s).2.2 = [] := by
  have h1 := duplicateWrites_of_no_writes _ (ListRecord_writes env domain s)
  rw [DelRecord]
  rcases hl : ListRecord env domain s with ⟨⟨recs, err⟩, s1, t1⟩
  rw [hl] at h1
  cases err with
  | some e => exact h1
  | none =>
    simp only [duplicateWrites_append]
    rw [h1, DelRecord_loop_duplicateWrites]
    rfl

theorem reconcileOnce_duplicateWrites {σ : Type} (env : Env σ) (rr domain ipaddr : String)
    (ipv6 : Bool) (s : σ) :
    (duplicateWrites (reconcileOnce env rr domain ipaddr ipv6 s).2.2).length
      = match (reconcileOnce env rr domain ipaddr ipv6 s).1 with
        | Sum.inl _ => 0
        | Sum.inr err => if isDuplicate err then 1 else 0 := by
  by_cases hdns : (env.getDNS (rr ++ "." ++ domain) ipv6 s).1 = ipaddr
  · rw [reconcileOnce_skip env rr domain ipaddr ipv6 s hdns]
    rfl
  · have h1 := duplicateWrites_of_no_writes _
      (ListRecord_writes env domain (env.getDNS (rr ++ "." ++ domain) ipv6 s).2)
    rcases hl : ListRecord env domain (env.getDNS (rr ++ "." ++ domain) ipv6 s).2
      with ⟨⟨recs, err⟩, s1, t1⟩
    rw [hl] at h1
    simp only at h1
    cases err with
    | some e =>
      rw [reconcileOnce_listing_failed env rr domain ipaddr ipv6 s recs e s1 t1 hdns hl]
      simp only [duplicateWrites, List.filter_cons] at h1 ⊢
      simp [h1]
    | none =>
      rw [reconcileOnce_listed env rr domain ipaddr ipv6 s recs s1 t1 hdns hl]
      have hd : duplicateWrites (dropDuplicates env rr domain
          (findTarget rr (recordTypeOf ipv6) recs (none, 0)) s1).2.2 = [] := by
        rw [dropDuplicates]
        split
        · exact DelRecord_duplicateWrites env rr domain s1
        · rfl
      generalize (dropDuplicates env rr domain
          (findTarget rr (recordTypeOf ipv6) recs (none, 0)) s1) = d at hd ⊢
      have hcons : ∀ t, duplicateWrites (Event.getDNS (rr ++ "." ++ domain) ipv6
          (env.getDNS (rr ++ "." ++ domain) ipv6 s).1 :: t) = duplicateWrites t := by
        intro t; simp [duplicateWrites]
      simp only [hcons, duplicateWrites_append, h1, hd, List.nil_append]
      rcases d with ⟨target, s2, t2⟩
      cases target with
      | none =>
        simp only [writeRecord, AddRecord, duplicateWrites, List.filter_cons]
        split <;> simp_all
      | some tg =>
        simp only [writeRecord]
        by_cases hv : tg.Value ≠ ipaddr
        · rw [if_pos hv]
          by_cases hty : tg.Type_ ≠ recordTypeOf ipv6
          · rw [if_pos hty]
            rfl
          · rw [if_neg hty]
            simp only [UpdateRecord, duplicateWrites, List.filter_cons]
            split <;> simp_all
        · rw [if_neg hv]
          rfl

theorem CheckAndUpdateRecord_duplicateWrites {σ : Type} (env : Env σ)
    (rr domain ipaddr : String) (ipv6 : Bool) :
    ∀ (fuel : Nat) (s : σ),
      (duplicateWrites (CheckAndUpdateRecord env fuel rr domain ipaddr ipv6 s).2.2).length
          ≤ fuel ∧
        ((CheckAndUpdateRecord env fuel rr domain ipaddr ipv6 s).1 = none ↔
          (duplicateWrites (CheckAndUpdateRecord env fuel rr domain ipaddr ipv6 s).2.2).length
            = fuel) := by
  intro fuel
  induction fuel with
  | zero => intro s; exact ⟨le_refl _, by simp [CheckAndUpdateRecord, duplicateWrites]⟩
  | succ n ih =>
    intro s
    have h1 := reconcileOnce_duplicateWrites env rr domain ipaddr ipv6 s
    rw [CheckAndUpdateRecord]
    rcases hr : reconcileOnce env rr domain ipaddr ipv6 s with ⟨res, s1, t1⟩
    rw [hr] at h1
    cases res with
    | inl e =>
      simp only at h1 ⊢
      rw [h1]
      exact ⟨Nat.zero_le _, by simp⟩
    | inr err =>
      simp only at h1 ⊢
      by_cases hdup : isDuplicate err = true
      · simp only [hdup, if_true] at h1 ⊢
        obtain ⟨ih1, ih2⟩ := ih (DelRecord env rr domain s1).2.1
        simp only [duplicateWrites_append, List.length_append, h1,
          DelRecord_duplicateWrites, List.length_nil, Nat.add_zero]
        exact ⟨by omega, by rw [ih2]; omega⟩
      · simp only [hdup] at h1 ⊢
        simp only [Bool.false_eq_true, if_false] at h1 ⊢
        rw [h1]
        exact ⟨Nat.zero_le _, by simp⟩

theorem duplicating_listing (domain : String) (n : Nat) :
    ListRecord duplicating domain n
      = (([], none), n,
          [Event.describeDomainRecordsNew (listDomain duplicating domain) 1 50
            (DescribeResponse.ok [] 0)]) := rfl

theorem duplicating_DelRecord (rr domain : String) (n : Nat) :
    (DelRecord duplicating rr domain n).2.1 = n := rfl

theorem duplicating_pass (rr domain ipaddr : String) (ipv6 : Bool) (n : Nat)
    (hip : ipaddr ≠ "") :
    (reconcileOnce duplicating rr domain ipaddr ipv6 n).1
        = Sum.inr (match n with
          | 0 => none
          | _ + 1 => some duplicateError) ∧
      (reconcileOnce duplicating rr domain ipaddr ipv6 n).2.1 = n - 1 := by
  have hdns : (duplicating.getDNS (rr ++ "." ++ domain) ipv6 n).1 ≠ ipaddr :=
    fun h => hip h.symm
  rw [reconcileOnce_listed duplicating rr domain ipaddr ipv6 n [] n _ hdns
    (duplicating_listing domain n)]
  cases n with
  | zero => exact ⟨rfl, rfl⟩
  | succ k => exact ⟨rfl, rfl⟩

theorem isDuplicate_duplicateError : isDuplicate (some duplicateError) = true := by decide

theorem duplicating_run (rr domain ipaddr : String) (ipv6 : Bool) (hip : ipaddr ≠ "") :
    ∀ (n fuel : Nat), n < fuel →
      (CheckAndUpdateRecord duplicating fuel rr domain ipaddr ipv6 n).1 = some none ∧
        (duplicateWrites
          (CheckAndUpdateRecord duplicating fuel rr domain ipaddr ipv6 n).2.2).length = n := by
  intro n
  induction n with
  | zero =>
    intro fuel hf
    obtain ⟨f, rfl⟩ : ∃ f, fuel = f + 1 := ⟨fuel - 1, by omega⟩
    have hp := duplicating_pass rr domain ipaddr ipv6 0 hip
    have hw := reconcileOnce_duplicateWrites duplicating rr domain ipaddr ipv6 0
    rw [CheckAndUpdateRecord]
    rcases hr : reconcileOnce duplicating rr domain ipaddr ipv6 0 with ⟨res, s1, t1⟩
    rw [hr] at hp hw
    obtain ⟨hp1, _⟩ := hp
    simp only at hp1 hw
    subst hp1
    simp only [isDuplicate, Bool.false_eq_true, if_false] at hw ⊢
    exact ⟨trivial, hw⟩
  | succ k ih =>
    intro fuel hf
    obtain ⟨f, rfl⟩ : ∃ f, fuel = f + 1 := ⟨fuel - 1, by omega⟩
    have hp := duplicating_pass rr domain ipaddr ipv6 (k + 1) hip
    have hw := reconcileOnce_duplicateWrites duplicating rr domain ipaddr ipv6 (k + 1)
    rw [CheckAndUpdateRecord]
    rcases hr : reconcileOnce duplicating rr domain ipaddr ipv6 (k + 1) with ⟨res, s1, t1⟩
    rw [hr] at hp hw
    obtain ⟨hp1, hp2⟩ := hp
    simp only at hp1 hp2 hw
    subst hp1 hp2
    simp only [isDuplicate_duplicateError, if_true] at hw ⊢
    rw [duplicating_DelRecord]
    obtain ⟨ih1, ih2⟩ := ih f (by omega)
    refine ⟨ih1, ?_⟩
    simp only [duplicateWrites_append, List.length_append, hw, DelRecord_duplicateWrites,
      List.length_nil, ih2]
    omega

theorem alwaysDuplicating_run (rr domain ipaddr : String) (ipv6 : Bool) (hip : ipaddr ≠ "") :
    ∀ (fuel : Nat),
      (CheckAndUpdateRecord alwaysDuplicating fuel rr domain ipaddr ipv6 ()).1 = none := by
  intro fuel
  induction fuel with
  | zero => rfl
  | succ n ih =>
    have hdns : (alwaysDuplicating.getDNS (rr ++ "." ++ domain) ipv6 ()).1 ≠ ipaddr :=
      fun h => hip h.symm
    have hl : ListRecord alwaysDuplicating domain
        (alwaysDuplicating.getDNS (rr ++ "." ++ domain) ipv6 ()).2
        = (([], none), (), [Event.describeDomainRecordsNew (listDomain alwaysDuplicating domain)
            1 50 (DescribeResponse.ok [] 0)]) := rfl
    rw [CheckAndUpdateRecord,
      reconcileOnce_listed alwaysDuplicating rr domain ipaddr ipv6 () [] () _ hdns hl]
    have hw : (writeRecord alwaysDuplicating domain rr (recordTypeOf ipv6) ipaddr
        (dropDuplicates alwaysDuplicating rr domain
          (findTarget rr (recordTypeOf ipv6) [] (none, 0)) ()).1
        (dropDuplicates alwaysDuplicating rr domain
          (findTarget rr (recordTypeOf ipv6) [] (none, 0)) ()).2.1).1
        = Sum.inr (some duplicateError) := rfl
    rw [hw]
    simp only [isDuplicate_duplicateError, if_true]
    exact ih

/-- C6 (bounded duplicate recovery), amended.  `CheckAndUpdateRecord` re-enters itself once
for every create or update that fails with a `DomainRecordDuplicate` error, with no cap: over
any provider, `fuel` activations have not returned exactly when `fuel` writes of the run failed
with that error (and never more than `fuel` did); against a provider whose create fails so on
the first `n` attempts only, the call returns nil after exactly `n` re-entries, for every `n`;
against a provider whose create fails so on every attempt, it never returns. -/
theorem retries_follow_duplicate_errors :
    (∀ (σ : Type) (env : Env σ) (fuel : Nat) (rr domain ipaddr : String) (ipv6 : Bool) (s : σ),
      (duplicateWrites (CheckAndUpdateRecord env fuel rr domain ipaddr ipv6 s).2.2).length
          ≤ fuel ∧
        ((CheckAndUpdateRecord env fuel rr domain ipaddr ipv6 s).1 = none ↔
          (duplicateWrites (CheckAndUpdateRecord env fuel rr domain ipaddr ipv6 s).2.2).length
            = fuel)) ∧
      (∀ (n : Nat) (rr domain ipaddr : String) (ipv6 : Bool), ipaddr ≠ "" →
        (CheckAndUpdateRecord duplicating (n + 1) rr domain ipaddr ipv6 n).1 = some none ∧
          (duplicateWrites
            (CheckAndUpdateRecord duplicating (n + 1) rr domain ipaddr ipv6 n).2.2).length
              = n) ∧
      (∀ (fuel : Nat) (rr domain ipaddr : String) (ipv6 : Bool), ipaddr ≠ "" →
        (CheckAndUpdateRecord alwaysDuplicating fuel rr domain ipaddr ipv6 ()).1 = none) :=
  ⟨fun _ env fuel rr domain ipaddr ipv6 s =>
      CheckAndUpdateRecord_duplicateWrites env rr domain ipaddr ipv6 fuel s,
    fun n rr domain ipaddr ipv6 hip =>
      duplicating_run rr domain ipaddr ipv6 hip n (n + 1) (Nat.lt_succ_self n),
    fun fuel rr domain ipaddr ipv6 hip => alwaysDuplicating_run rr domain ipaddr ipv6 hip fuel⟩

/-- C6 as stated fails: a provider whose create fails with `DomainRecordDuplicate` three times
makes `CheckAndUpdateRecord` re-enter three times and return nil, not the duplicate error; and
against a provider whose create always fails so, no number of activations returns. -/
theorem duplicate_retries_exceed_two :
    (CheckAndUpdateRecord duplicating 4 "ddns" "example.com" "203.0.113.7" false 3).1
        = some none ∧
      (duplicateWrites (CheckAndUpdateRecord duplicating 4 "ddns" "example.com" "203.0.113.7"
        false 3).2.2).length = 3 ∧
      ¬ ∃ fuel, (CheckAndUpdateRecord alwaysDuplicating fuel "ddns" "example.com"
        "203.0.113.7" false ()).1 ≠ none := by
  refine ⟨by decide, by decide, ?_⟩
  rintro ⟨fuel, h⟩
  exact h (alwaysDuplicating_run "ddns" "example.com" "203.0.113.7" false (by decide) fuel)

/-! ## Theorems: `appInit` (C8) and the `auto-update` action (C9) -/

theorem lessChars_irrefl : ∀ a : List Char, lessChars a a = false := by
  intro a
  induction a with
  | nil => rfl
  | cons x xs ih => simp [lessChars, ih]

theorem lessChars_trans : ∀ a b c : List Char,
    lessChars a b = true → lessChars b c = true → lessChars a c = true := by
  intro a
  induction a with
  | nil =>
    intro b c hab hbc
    cases b with
    | nil => simp [lessChars] at hab
    | cons y ys =>
      cases c with
      | nil => simp [lessChars] at hbc
      | cons z zs => simp [lessChars]
  | cons x xs ih =>
    intro b c hab hbc
    cases b with
    | nil => simp [lessChars] at hab
    | cons y ys =>
      cases c with
      | nil => simp [lessChars] at hbc
      | cons z zs =>
        simp only [lessChars] at hab hbc ⊢
        by_cases hxy : x = y
        · subst hxy
          simp only [if_true] at hab
          by_cases hxz : x = z
          · subst hxz
            simp only [if_true] at hbc ⊢
            exact ih ys zs hab hbc
          · simp only [hxz, if_false] at hbc ⊢
            exact hbc
        · simp only [hxy, if_false, decide_eq_true_eq] at hab
          by_cases hyz : y = z
          · subst hyz
            simp only [hxy, if_false, decide_eq_true_eq]
            exact hab
          · simp only [hyz, if_false, decide_eq_true_eq] at hbc
            have hxz : x < z := lt_trans hab hbc
            simp only [ne_of_lt hxz, if_false, decide_eq_true_eq]
            exact hxz

theorem lessChars_connected : ∀ a b : List Char,
    lessChars a b = false → lessChars b a = false → a = b := by
  intro a
  induction a with
  | nil =>
    intro b hab _
    cases b with
    | nil => rfl
    | cons y ys => simp [lessChars] at hab
  | cons x xs ih =>
    intro b hab hba
    cases b with
    | nil => simp [lessChars] at hba
    | cons y ys =>
      simp only [lessChars] at hab hba
      by_cases hxy : x = y
      · subst hxy
        simp only [if_true] at hab hba
        rw [ih ys hab hba]
      · have hyx : ¬ y = x := fun e => hxy e.symm
        simp only [hxy, hyx, if_false, decide_eq_false_iff_not, not_lt] at hab hba
        exact absurd (le_antisymm hba hab) hxy

theorem stringLess_irrefl (a : String) : stringLess a a = false := lessChars_irrefl _

theorem stringLess_trans (a b c : String) (hab : stringLess a b = true)
    (hbc : stringLess b c = true) : stringLess a c = true :=
  lessChars_trans _ _ _ hab hbc

theorem stringLess_connected (a b : String) (hab : stringLess a b = false)
    (hba : stringLess b a = false) : a = b :=
  String.ext (lessChars_connected _ _ hab hba)

theorem stringLess_empty (a : String) (ha : a ≠ "") : stringLess "" a = true := by
  have hd : a.data ≠ [] := fun h => ha (String.ext h)
  simp only [stringLess]
  cases hdata : a.data with
  | nil => exact absurd hdata hd
  | cons x xs => rfl

theorem stringLess_asymm (a b : String) (hab : stringLess a b = true) :
    stringLess b a = false := by
  cases hba : stringLess b a with
  | false => rfl
  | true =>
    have := stringLess_trans a b a hab hba
    rw [stringLess_irrefl] at this
    exact absurd this (by decide)

theorem stringLess_neg_trans (a b c : String) (hab : stringLess a b = false)
    (hbc : stringLess b c = false) : stringLess a c = false := by
  cases hac : stringLess a c with
  | false => rfl
  | true =>
    cases hba : stringLess b a with
    | false =>
      have e := stringLess_connected a b hab hba
      subst e
      rw [hac] at hbc
      exact absurd hbc (by decide)
    | true =>
      have := stringLess_trans b a c hba hac
      rw [this] at hbc
      exact absurd hbc (by decide)

/-- The first element `sort.Sort(sort.Reverse(...))` leaves in a slice of three strings is one
of the three, and none of the three is greater. -/
theorem sortReverseStrings_head (a b c : String) :
    (sortReverseStrings [a, b, c]).headD "" ∈ [a, b, c] ∧
      ∀ v ∈ [a, b, c], stringLess ((sortReverseStrings [a, b, c]).headD "") v = false := by
  have haa := stringLess_irrefl a
  have hbb := stringLess_irrefl b
  have hcc := stringLess_irrefl c
  simp only [sortReverseStrings, insertionSort, List.foldl, sinkLeft]
  cases hab : stringLess a b <;> cases hbc : stringLess b c <;> cases hac : stringLess a c <;>
    simp only [Bool.false_eq_true, if_false, if_true, sinkLeft, hab, hbc, hac, List.reverse_cons,
      List.reverse_nil, List.nil_append, List.cons_append, List.headD_cons, List.mem_cons,
      List.mem_singleton, true_or, or_true, true_and, forall_eq_or_imp, forall_eq, and_true,
      haa, hbb, hcc, List.not_mem_nil, false_implies, implies_true, or_false]
  · have := stringLess_neg_trans a b c hab hbc
    rw [hac] at this
    exact this
  · exact ⟨stringLess_asymm a c hac, stringLess_asymm b c hbc⟩
  · exact stringLess_asymm a b hab
  · exact stringLess_asymm a b hab
  · have := stringLess_trans a b c hab hbc
    rw [hac] at this
    exact absurd this (by decide)
  · exact ⟨stringLess_asymm a c hac, stringLess_asymm b c hbc⟩

theorem appInit_accessKey (getenv : String → String) (endpoint : String) (c : Context)
    (g : Globals) :
    (appInit getenv endpoint c g).2.accessKey.ID
        = (sortReverseStrings [c.accessKeyId, getenv "AKID", getenv "AccessKeyID"]).headD "" ∧
      (appInit getenv endpoint c g).2.accessKey.Secret
        = (sortReverseStrings [c.accessKeySecret, getenv "AKSCT",
            getenv "AccessKeySecret"]).headD "" := by
  simp only [appInit, AccessKey.getClient]
  split <;> split <;> simp_all <;> split <;> simp_all

/-- C8 (credential precedence), amended.  `appInit` sets `accessKey.ID` to the greatest, in
string order, of the `--access-key-id` flag value and the environment values `AKID` and
`AccessKeyID`: it is one of the three and none of the three is greater.  So it is the flag
value when the flag is non-empty and both environment values are empty, and an environment
value when the flag is empty.  Likewise `accessKey.Secret` is the greatest of the
`--access-key-secret` flag value, `AKSCT` and `AccessKeySecret`. -/
theorem appInit_takes_greatest (getenv : String → String) (endpoint : String) (c : Context)
    (g : Globals) :
    ((appInit getenv endpoint c g).2.accessKey.ID
          ∈ [c.accessKeyId, getenv "AKID", getenv "AccessKeyID"] ∧
        ∀ v ∈ [c.accessKeyId, getenv "AKID", getenv "AccessKeyID"],
          stringLess (appInit getenv endpoint c g).2.accessKey.ID v = false) ∧
      ((appInit getenv endpoint c g).2.accessKey.Secret
          ∈ [c.accessKeySecret, getenv "AKSCT", getenv "AccessKeySecret"] ∧
        ∀ v ∈ [c.accessKeySecret, getenv "AKSCT", getenv "AccessKeySecret"],
          stringLess (appInit getenv endpoint c g).2.accessKey.Secret v = false) ∧
      (c.accessKeyId ≠ "" ∧ getenv "AKID" = "" ∧ getenv "AccessKeyID" = "" →
        (appInit getenv endpoint c g).2.accessKey.ID = c.accessKeyId) ∧
      (c.accessKeyId = "" →
        (appInit getenv endpoint c g).2.accessKey.ID ∈ [getenv "AKID", getenv "AccessKeyID"]) ∧
      (c.accessKeySecret ≠ "" ∧ getenv "AKSCT" = "" ∧ getenv "AccessKeySecret" = "" →
        (appInit getenv endpoint c g).2.accessKey.Secret = c.accessKeySecret) := by
  obtain ⟨hid, hsec⟩ := appInit_accessKey getenv endpoint c g
  have h1 := sortReverseStrings_head c.accessKeyId (getenv "AKID") (getenv "AccessKeyID")
  have h2 := sortReverseStrings_head c.accessKeySecret (getenv "AKSCT")
    (getenv "AccessKeySecret")
  rw [← hid] at h1
  rw [← hsec] at h2
  have key : ∀ (m flag e1 e2 : String), m ∈ [flag, e1, e2] →
      (∀ v ∈ [flag, e1, e2], stringLess m v = false) → flag ≠ "" ∧ e1 = "" ∧ e2 = "" →
      m = flag := by
    intro m flag e1 e2 hm hmax ⟨hf, he1, he2⟩
    subst he1 he2
    simp only [List.mem_cons, List.mem_singleton, List.not_mem_nil, or_false] at hm
    rcases hm with h | h | h
    · exact h
    · have := hmax flag (by simp)
      rw [h, stringLess_empty flag hf] at this
      exact absurd this (by decide)
    · have := hmax flag (by simp)
      rw [h, stringLess_empty flag hf] at this
      exact absurd this (by decide)
  refine ⟨h1, h2, key _ _ _ _ h1.1 h1.2, ?_, key _ _ _ _ h2.1 h2.2⟩
  intro hflag
  have hm := h1.1
  simp only [List.mem_cons, List.mem_singleton, List.not_mem_nil, or_false] at hm ⊢
  rcases hm with h | h | h
  · by_cases he1 : getenv "AKID" = ""
    · left; rw [h, hflag, he1]
    · have := h1.2 (getenv "AKID") (by simp)
      rw [h, hflag, stringLess_empty _ he1] at this
      exact absurd this (by decide)
  · exact Or.inl h
  · exact Or.inr h

/-- C8 as stated fails: with the flag `--access-key-id LTAI4flag` and `AKID=LTAI5env` in the
environment, `appInit` sets `accessKey.ID` to the environment value. -/
theorem appInit_prefers_greater_env :
    (appInit envWithAKID "https://alidns.aliyuncs.com" flagContext freshGlobals).2.accessKey.ID
      = "LTAI5env" := by
  decide

/-- A string the specification's pattern `^\d+[Rr]?$` matches is matched by the pattern of
line 269 as well, so the action does not reject it. -/
theorem redoPattern_of_spec (s : String) (h : redoSpecPattern.MatchString s = true) :
    redoPattern.MatchString s = true := by
  simp only [Pattern.MatchString, redoSpecPattern, redoPattern, List.any_eq_true,
    Bool.and_eq_true, Bool.or_eq_true, Bool.not_eq_true', beq_iff_eq] at h ⊢
  obtain ⟨start, hs, _, len, hl, hend, hm⟩ := h
  exact ⟨start, hs, Or.inl trivial, len, hl, hend, hm⟩

/-- What the check of line 269 does: when `appInit` succeeds and the non-empty `--redo` value
has no match of `\d+[Rr]?$`, the action returns the format error with no outside call made. -/
theorem autoUpdateAction_rejects_unmatched {σ : Type} (host : Host σ) (fuel rounds : Nat)
    (c : Context) (g : Globals) (s : σ)
    (hinit : (appInit host.Getenv host.DNSDefaultEndpointNew c g).1 = none)
    (hredo : c.redo.utf8ByteSize > 0)
    (hno : redoPattern.MatchString c.redo = false) :
    (autoUpdateAction host fuel rounds c g s).1 = some (some "redo format: [0-9]+[Rr]?$") ∧
      (autoUpdateAction host fuel rounds c g s).2.2.2 = [] ∧
      (autoUpdateAction host fuel rounds c g s).2.2.1 = s := by
  rw [autoUpdateAction]
  rcases hi : appInit host.Getenv host.DNSDefaultEndpointNew c g with ⟨e, g1⟩
  rw [hi] at hinit
  simp only at hinit
  subst hinit
  simp [hredo, hno]

/-- C9 at the failing input `--redo abc10`.  The string does not match `^\d+[Rr]?$`, yet the
pattern of line 269, which has no `^`, finds the suffix `10`: the action does not return the
format error; `strconv.Atoi("abc10")` gives 0, and the loop runs once, resolving the address
and updating the record at the provider. -/
theorem redo_suffix_is_accepted :
    redoSpecPattern.MatchString "abc10" = false ∧
      redoPattern.MatchString "abc10" = true ∧
      (autoUpdateAction demoHost 1 1 { flagContext with redo := "abc10" } freshGlobals
        oneForDdns).1 = some none ∧
      (autoUpdateAction demoHost 1 1 { flagContext with redo := "abc10" } freshGlobals
        oneForDdns).2.2.2.head? = some (Event.getIP "203.0.113.7") ∧
      writes (autoUpdateAction demoHost 1 1 { flagContext with redo := "abc10" } freshGlobals
        oneForDdns).2.2.2 = [Event.updateDomainRecord "1" "ddns" "203.0.113.7" "A" none] := by
  decide

/-! ## Theorems: reconciliation against the faithful provider (C1, C4, C5) -/

/-- C1 (convergence under duplication), amended.  On the faithful provider, for a domain that
`ListRecord` lists under its own name and whose records fit in the 99 pages of 50 that
`ListRecord` reads: when the listing holds two or more records with `RR = rr` and `Type = "A"`
and the DNS short-circuit does not apply, `CheckAndUpdateRecord(rr, domain, ipaddr, false)`
returns nil, its mutating calls are one delete for every listed record with `RR = rr` followed
by exactly one `AddDomainRecord(domain, rr, "A", ipaddr)`, with no update, and the provider is
left with exactly one `A` record for `rr` in the domain, whose value is `ipaddr`. -/
theorem faithful_duplicates_converge (split : String → String × String)
    (dns : List RecordTypeNew → String → Bool → String) (newId : List RecordTypeNew → String)
    (fuel : Nat) (rr domain ipaddr : String) (s : List RecordTypeNew)
    (hsplit : listDomain (faithful split dns newId) domain = domain)
    (hsize : (zoneOf s domain).length ≤ 4950)
    (hdns : dns s (rr ++ "." ++ domain) false ≠ ipaddr)
    (hdup : 2 ≤ ((ListRecord (faithful split dns newId) domain s).1.1.filter
        (fun x => x.RR = rr ∧ x.Type_ = "A")).length) :
    (CheckAndUpdateRecord (faithful split dns newId) (fuel + 1) rr domain ipaddr false s).1
        = some none ∧
      writes (CheckAndUpdateRecord (faithful split dns newId) (fuel + 1) rr domain ipaddr
          false s).2.2
        = deletesFor rr (ListRecord (faithful split dns newId) domain s).1.1
          ++ [Event.addDomainRecord domain rr "A" ipaddr none] ∧
      ∃ id, recordsFor rr domain "A"
          (CheckAndUpdateRecord (faithful split dns newId) (fuel + 1) rr domain ipaddr
            false s).2.1
        = [{ DomainName := domain, RecordId := id, RR := rr, Type_ := "A", Value := ipaddr }] := by
  have hL := faithful_listing_of_size split dns newId domain s hsplit hsize
  have hw := ListRecord_writes (faithful split dns newId) domain s
  have hlist : (ListRecord (faithful split dns newId) domain s).1.1 = zoneOf s domain := by
    rw [faithful_ListRecord, hL]
  rw [hlist] at hdup ⊢
  have hmany : 2 ≤ (((zoneOf s (listDomain (faithful split dns newId) domain)).take 4950).filter
      (fun x => x.RR = rr ∧ x.Type_ = recordTypeOf false)).length := by
    rw [hL]; exact hdup
  rw [faithful_run_duplicates split dns newId fuel rr domain ipaddr false s hdns hmany, hL]
  refine ⟨rfl, ?_, ⟨newId (withoutListed rr (zoneOf s domain) s), ?_⟩⟩
  · simp [writes_cons, Event.isWrite, hw, writes_deletesFor]
    rfl
  · have h0 := recordsFor_withoutListed rr domain "A" s
    simp only [recordsFor, List.filter_append] at h0 ⊢
    rw [h0]
    simp [recordTypeOf]

/-- The hypotheses of C1 (amended) hold for two `A` records of `ddns.example.com`. -/
theorem faithful_duplicates_converge_witness :
    (CheckAndUpdateRecord (faithful splitFirstLabel (fun _ _ _ => "") (fun _ => "new")) 1
        "ddns" "example.com" "203.0.113.7" false twoForDdns).1 = some none ∧
      writes (CheckAndUpdateRecord (faithful splitFirstLabel (fun _ _ _ => "") (fun _ => "new")) 1
          "ddns" "example.com" "203.0.113.7" false twoForDdns).2.2
        = deletesFor "ddns" (ListRecord (faithful splitFirstLabel (fun _ _ _ => "")
            (fun _ => "new")) "example.com" twoForDdns).1.1
          ++ [Event.addDomainRecord "example.com" "ddns" "A" "203.0.113.7" none] ∧
      ∃ id, recordsFor "ddns" "example.com" "A"
          (CheckAndUpdateRecord (faithful splitFirstLabel (fun _ _ _ => "") (fun _ => "new")) 1
            "ddns" "example.com" "203.0.113.7" false twoForDdns).2.1
        = [{ DomainName := "example.com", RecordId := id, RR := "ddns", Type_ := "A",
             Value := "203.0.113.7" }] :=
  faithful_duplicates_converge splitFirstLabel (fun _ _ _ => "") (fun _ => "new") 0
    "ddns" "example.com" "203.0.113.7" twoForDdns (by decide) (by decide) (by decide)
    (by decide)

/-- C5 (single-record invariant), amended.  On the faithful provider, for a domain that
`ListRecord` lists under its own name, whose records fit in the 99 pages of 50 and have unique
ids: `CheckAndUpdateRecord` returns nil; when the DNS short-circuit fires the provider is left
as it was; when it does not fire the provider is left with exactly one record for
`(rr, domain, requested type)`, whose value is `ipaddr`. -/
theorem faithful_single_record (split : String → String × String)
    (dns : List RecordTypeNew → String → Bool → String) (newId : List RecordTypeNew → String)
    (fuel : Nat) (rr domain ipaddr : String) (ipv6 : Bool) (s : List RecordTypeNew)
    (hsplit : listDomain (faithful split dns newId) domain = domain)
    (hsize : (zoneOf s domain).length ≤ 4950)
    (hids : (s.map (fun x => x.RecordId)).Nodup) :
    (CheckAndUpdateRecord (faithful split dns newId) (fuel + 1) rr domain ipaddr ipv6 s).1
        = some none ∧
      (dns s (rr ++ "." ++ domain) ipv6 = ipaddr →
        (CheckAndUpdateRecord (faithful split dns newId) (fuel + 1) rr domain ipaddr ipv6 s).2.1
          = s) ∧
      (dns s (rr ++ "." ++ domain) ipv6 ≠ ipaddr →
        ∃ r, recordsFor rr domain (recordTypeOf ipv6)
            (CheckAndUpdateRecord (faithful split dns newId) (fuel + 1) rr domain ipaddr
              ipv6 s).2.1 = [r] ∧ r.Value = ipaddr) := by
  by_cases hdns : dns s (rr ++ "." ++ domain) ipv6 = ipaddr
  · have hskip := reconcileOnce_skip (faithful split dns newId) rr domain ipaddr ipv6 s hdns
    rw [CheckAndUpdateRecord, hskip]
    exact ⟨rfl, fun _ => rfl, fun h => absurd hdns h⟩
  · obtain ⟨h1, h2, _, _⟩ :=
      faithful_run_post split dns newId fuel rr domain ipaddr ipv6 s hsplit hsize hids hdns
    exact ⟨h1, fun h => absurd h hdns, fun _ => h2⟩

/-- The hypotheses of C5 (amended) hold for two `A` records of `ddns.example.com`. -/
theorem faithful_single_record_witness :
    (CheckAndUpdateRecord (faithful splitFirstLabel (fun _ _ _ => "") (fun _ => "new")) 1
        "ddns" "example.com" "203.0.113.7" false twoForDdns).1 = some none ∧
      ∃ r, recordsFor "ddns" "example.com" (recordTypeOf false)
          (CheckAndUpdateRecord (faithful splitFirstLabel (fun _ _ _ => "") (fun _ => "new")) 1
            "ddns" "example.com" "203.0.113.7" false twoForDdns).2.1 = [r]
        ∧ r.Value = "203.0.113.7" :=
  ⟨(faithful_single_record splitFirstLabel (fun _ _ _ => "") (fun _ => "new") 0
      "ddns" "example.com" "203.0.113.7" false twoForDdns (by decide) (by decide)
      (by decide)).1,
    (faithful_single_record splitFirstLabel (fun _ _ _ => "") (fun _ => "new") 0
      "ddns" "example.com" "203.0.113.7" false twoForDdns (by decide) (by decide)
      (by decide)).2.2 (by decide)⟩

/-- C5 as stated fails: with a live DNS answer equal to the desired address the call returns
nil and leaves both `A` records of `ddns.example.com`, neither carrying the desired value. -/
theorem short_circuit_keeps_duplicates :
    (CheckAndUpdateRecord (faithfulWithDNS "203.0.113.7") 1 "ddns" "example.com"
        "203.0.113.7" false twoForDdns).1 = some none ∧
      recordsFor "ddns" "example.com" "A"
        (CheckAndUpdateRecord (faithfulWithDNS "203.0.113.7") 1 "ddns" "example.com"
          "203.0.113.7" false twoForDdns).2.1
        = [aRecord "1" "ddns" "198.51.100.1", aRecord "3" "ddns" "198.51.100.2"] := by
  decide

/-- C4 (idempotence), amended.  On the faithful provider that nothing else mutates, for a
domain that `ListRecord` lists under its own name, with fewer than 4950 records and unique
record ids, and whatever the live DNS answers on the first run (`dns1`) and on the second
(`dns2`): two calls of `CheckAndUpdateRecord` in a row with the same arguments both return nil.
The second makes no mutating call and leaves the provider as the first left it whenever the
short-circuit did not fire on the first run, or the live DNS answers `ipaddr` on the second
run, or the provider held exactly one record for `(rr, domain, type)` carrying `ipaddr` from
the start.  The first run makes no mutating call and changes nothing when its short-circuit
fires; otherwise it makes exactly one create when the provider holds no record for
`(rr, domain, type)`, none when it holds one carrying `ipaddr`, exactly one update of that
record when it holds one carrying another value, and one delete per record of the host label
followed by one create when it holds two or more; and it leaves exactly one record for
`(rr, domain, type)`, carrying `ipaddr`. -/
theorem faithful_second_run_quiet (split : String → String × String)
    (dns1 dns2 : List RecordTypeNew → String → Bool → String)
    (newId : List RecordTypeNew → String)
    (fuel fuel2 : Nat) (rr domain ipaddr : String) (ipv6 : Bool) (s : List RecordTypeNew)
    (hsplit : listDomain (faithful split dns1 newId) domain = domain)
    (hsize : (zoneOf s domain).length < 4950)
    (hids : (s.map (fun x => x.RecordId)).Nodup) :
    (CheckAndUpdateRecord (faithful split dns1 newId) (fuel + 1) rr domain ipaddr ipv6 s).1
        = some none ∧
      (CheckAndUpdateRecord (faithful split dns2 newId) (fuel2 + 1) rr domain ipaddr ipv6
        (CheckAndUpdateRecord (faithful split dns1 newId) (fuel + 1) rr domain ipaddr
          ipv6 s).2.1).1 = some none ∧
      (dns1 s (rr ++ "." ++ domain) ipv6 ≠ ipaddr ∨
          dns2 (CheckAndUpdateRecord (faithful split dns1 newId) (fuel + 1) rr domain ipaddr
            ipv6 s).2.1 (rr ++ "." ++ domain) ipv6 = ipaddr ∨
          (∃ r, recordsFor rr domain (recordTypeOf ipv6) s = [r] ∧ r.Value = ipaddr) →
        writes (CheckAndUpdateRecord (faithful split dns2 newId) (fuel2 + 1) rr domain ipaddr
            ipv6 (CheckAndUpdateRecord (faithful split dns1 newId) (fuel + 1) rr domain ipaddr
              ipv6 s).2.1).2.2 = [] ∧
          (CheckAndUpdateRecord (faithful split dns2 newId) (fuel2 + 1) rr domain ipaddr
            ipv6 (CheckAndUpdateRecord (faithful split dns1 newId) (fuel + 1) rr domain ipaddr
              ipv6 s).2.1).2.1
            = (CheckAndUpdateRecord (faithful split dns1 newId) (fuel + 1) rr domain ipaddr
              ipv6 s).2.1) ∧
      (dns1 s (rr ++ "." ++ domain) ipv6 = ipaddr →
        writes (CheckAndUpdateRecord (faithful split dns1 newId) (fuel + 1) rr domain ipaddr
            ipv6 s).2.2 = [] ∧
          (CheckAndUpdateRecord (faithful split dns1 newId) (fuel + 1) rr domain ipaddr
            ipv6 s).2.1 = s) ∧
      (dns1 s (rr ++ "." ++ domain) ipv6 ≠ ipaddr →
        (recordsFor rr domain (recordTypeOf ipv6) s = [] →
          writes (CheckAndUpdateRecord (faithful split dns1 newId) (fuel + 1) rr domain ipaddr
              ipv6 s).2.2
            = [Event.addDomainRecord domain rr (recordTypeOf ipv6) ipaddr none]) ∧
        (∀ r, recordsFor rr domain (recordTypeOf ipv6) s = [r] → r.Value = ipaddr →
          writes (CheckAndUpdateRecord (faithful split dns1 newId) (fuel + 1) rr domain ipaddr
              ipv6 s).2.2 = [] ∧
            (CheckAndUpdateRecord (faithful split dns1 newId) (fuel + 1) rr domain ipaddr
              ipv6 s).2.1 = s) ∧
        (∀ r, recordsFor rr domain (recordTypeOf ipv6) s = [r] → r.Value ≠ ipaddr →
          writes (CheckAndUpdateRecord (faithful split dns1 newId) (fuel + 1) rr domain ipaddr
              ipv6 s).2.2
            = [Event.updateDomainRecord r.RecordId rr ipaddr (recordTypeOf ipv6) none]) ∧
        (2 ≤ (recordsFor rr domain (recordTypeOf ipv6) s).length →
          writes (CheckAndUpdateRecord (faithful split dns1 newId) (fuel + 1) rr domain ipaddr
              ipv6 s).2.2
            = deletesFor rr (zoneOf s domain)
              ++ [Event.addDomainRecord domain rr (recordTypeOf ipv6) ipaddr none]) ∧
        ∃ r, recordsFor rr domain (recordTypeOf ipv6)
            (CheckAndUpdateRecord (faithful split dns1 newId) (fuel + 1) rr domain ipaddr
              ipv6 s).2.1 = [r] ∧ r.Value = ipaddr) := by
  have hsplit2 : listDomain (faithful split dns2 newId) domain = domain := hsplit
  have hsize1 : (zoneOf s domain).length ≤ 4950 := by omega
  by_cases hdns : dns1 s (rr ++ "." ++ domain) ipv6 = ipaddr
  · obtain ⟨hnil, hquiet, hsame⟩ :=
      faithful_run_skipped split dns1 newId fuel rr domain ipaddr ipv6 s hdns
    rw [hsame]
    refine ⟨hnil, ?_, ?_, fun _ => ⟨hquiet, rfl⟩, fun h => absurd hdns h⟩
    · by_cases hdns2 : dns2 s (rr ++ "." ++ domain) ipv6 = ipaddr
      · exact (faithful_run_skipped split dns2 newId fuel2 rr domain ipaddr ipv6 s hdns2).1
      · exact (faithful_run_post split dns2 newId fuel2 rr domain ipaddr ipv6 s hsplit2 hsize1
          hids hdns2).1
    · rintro (h | h | ⟨r, hr, hv⟩)
      · exact absurd hdns h
      · exact (faithful_run_skipped split dns2 newId fuel2 rr domain ipaddr ipv6 s h).2
      · exact (faithful_run_settled split dns2 newId fuel2 rr domain ipaddr ipv6 s r hsplit2
          hsize1 hr hv).2
  · obtain ⟨hnil, ⟨r, hr, hv⟩, hlen, _⟩ :=
      faithful_run_post split dns1 newId fuel rr domain ipaddr ipv6 s hsplit hsize1 hids hdns
    have hsettled := faithful_run_settled split dns2 newId fuel2 rr domain ipaddr ipv6 _ r
      hsplit2 (by omega) hr hv
    obtain ⟨w1, w2, w3, w4⟩ :=
      faithful_run_writes split dns1 newId fuel rr domain ipaddr ipv6 s hsplit hsize1 hdns
    exact ⟨hnil, hsettled.1, fun _ => hsettled.2, fun h => absurd h hdns,
      fun _ => ⟨w1, w2, w3, w4, r, hr, hv⟩⟩

/-- The hypotheses of C4 (amended) hold for one stale `A` record of `ddns.example.com`, with a
live DNS that has no answer on the first run and the old address on the second: the first run
makes one update, the second no mutating call. -/
theorem faithful_second_run_quiet_witness :
    writes (CheckAndUpdateRecord (faithful splitFirstLabel (fun _ _ _ => "") (fun _ => "new")) 1
        "ddns" "example.com" "203.0.113.7" false oneForDdns).2.2
        = [Event.updateDomainRecord "1" "ddns" "203.0.113.7" "A" none] ∧
      writes (CheckAndUpdateRecord
        (faithful splitFirstLabel (fun _ _ _ => "198.51.100.1") (fun _ => "new")) 1
        "ddns" "example.com" "203.0.113.7" false
        (CheckAndUpdateRecord (faithful splitFirstLabel (fun _ _ _ => "") (fun _ => "new")) 1
          "ddns" "example.com" "203.0.113.7" false oneForDdns).2.1).2.2 = [] :=
  ⟨((faithful_second_run_quiet splitFirstLabel (fun _ _ _ => "")
      (fun _ _ _ => "198.51.100.1") (fun _ => "new") 0 0 "ddns" "example.com" "203.0.113.7"
      false oneForDdns (by decide) (by decide) (by decide)).2.2.2.2 (by decide)).2.2.1
      (aRecord "1" "ddns" "198.51.100.1") (by decide) (by decide),
    ((faithful_second_run_quiet splitFirstLabel (fun _ _ _ => "")
      (fun _ _ _ => "198.51.100.1") (fun _ => "new") 0 0 "ddns" "example.com" "203.0.113.7"
      false oneForDdns (by decide) (by decide) (by decide)).2.2.1 (Or.inl (by decide))).1⟩

/-- C4 as stated fails: the first run makes no mutating call when the record already carries
the desired value, and three (two deletes, one create) when the host has two records; and when
the short-circuit fires on the first run over a stale record and the live DNS has no answer on
the second, the first run makes no mutating call and the second makes one update. -/
theorem first_run_not_one_write :
    writes (CheckAndUpdateRecord (faithfulWithDNS "") 1 "ddns" "example.com" "198.51.100.1"
        false oneForDdns).2.2 = [] ∧
      writes (CheckAndUpdateRecord (faithfulWithDNS "") 1 "ddns" "example.com" "203.0.113.7"
        false twoForDdns).2.2
        = [Event.deleteDomainRecord "1" none, Event.deleteDomainRecord "3" none,
            Event.addDomainRecord "example.com" "ddns" "A" "203.0.113.7" none] ∧
      writes (CheckAndUpdateRecord (faithfulWithDNS "203.0.113.7") 1 "ddns" "example.com"
        "203.0.113.7" false oneForDdns).2.2 = [] ∧
      writes (CheckAndUpdateRecord (faithfulWithDNS "") 1 "ddns" "example.com" "203.0.113.7"
        false
        (CheckAndUpdateRecord (faithfulWithDNS "203.0.113.7") 1 "ddns" "example.com"
          "203.0.113.7" false oneForDdns).2.1).2.2
        = [Event.updateDomainRecord "1" "ddns" "203.0.113.7" "A" none] := by
  decide

/-! ## The listing window: a domain of more than 4950 records -/

theorem fillers_host : ∀ x ∈ fillers, x.RR = "www" ∧ x.DomainName = "example.com" := by
  intro x hx
  simp only [fillers, List.mem_map] at hx
  obtain ⟨i, _, rfl⟩ := hx
  exact ⟨rfl, rfl⟩

theorem fillers_length : fillers.length = 4948 := by
  simp [fillers]

theorem fillers_filter_ddns (g : RecordTypeNew → Bool)
    (hg : ∀ x, g x = true → x.RR = "ddns") : fillers.filter g = [] := by
  rw [List.filter_eq_nil_iff]
  intro x hx hgx
  have h1 := (fillers_host x hx).1
  have h2 := hg x hgx
  rw [h1] at h2
  exact absurd h2 (by decide)

theorem zoneOf_crowdedZone : zoneOf crowdedZone "example.com" = crowdedZone := by
  simp only [zoneOf, List.filter_eq_self]
  intro x hx
  simp only [crowdedZone, List.mem_cons, List.mem_append, List.not_mem_nil, or_false] at hx
  rcases hx with rfl | rfl | hx | rfl
  · rfl
  · rfl
  · simp [(fillers_host x hx).2]
  · rfl

theorem crowdedZone_listing :
    (zoneOf crowdedZone (listDomain (faithful splitFirstLabel (fun _ _ _ => "")
        (fun _ => "new")) "example.com")).take 4950
      = aRecord "1" "ddns" "198.51.100.1" :: aRecord "2" "ddns" "198.51.100.2" :: fillers := by
  have hd : listDomain (faithful splitFirstLabel (fun _ _ _ => "") (fun _ => "new"))
      "example.com" = "example.com" := by decide
  rw [hd, zoneOf_crowdedZone, crowdedZone]
  show List.take (4948 + 1 + 1) _ = _
  rw [List.take_succ_cons, List.take_succ_cons, List.take_left' fillers_length]

/-- C1 as stated fails past the listing window.  The faithful provider holds 4951 records for
`example.com`; the listing `ListRecord` obtains (99 pages of 50) holds two `A` records for
`ddns` and misses a third one, the last record.  The call returns nil and leaves two `A`
records for `ddns`: the unlisted one, with its old value, and the new one. -/
theorem crowded_zone_keeps_two :
    2 ≤ ((ListRecord (faithfulWithDNS "") "example.com" crowdedZone).1.1.filter
        (fun x => x.RR = "ddns" ∧ x.Type_ = "A")).length ∧
      (CheckAndUpdateRecord (faithfulWithDNS "") 1 "ddns" "example.com" "203.0.113.7" false
        crowdedZone).1 = some none ∧
      recordsFor "ddns" "example.com" "A"
        (CheckAndUpdateRecord (faithfulWithDNS "") 1 "ddns" "example.com" "203.0.113.7" false
          crowdedZone).2.1
        = [aRecord "3" "ddns" "198.51.100.3", aRecord "new" "ddns" "203.0.113.7"] := by
  have hfil : List.filter (fun x : RecordTypeNew => decide (x.RR = "ddns" ∧ x.Type_ = "A"))
        (aRecord "1" "ddns" "198.51.100.1" :: aRecord "2" "ddns" "198.51.100.2" :: fillers)
      = [aRecord "1" "ddns" "198.51.100.1", aRecord "2" "ddns" "198.51.100.2"] := by
    rw [List.filter_cons_of_pos (by decide), List.filter_cons_of_pos (by decide),
      fillers_filter_ddns _ (fun x hx => (of_decide_eq_true hx).1)]
  have hmany : 2 ≤ (((zoneOf crowdedZone (listDomain (faithful splitFirstLabel (fun _ _ _ => "")
      (fun _ => "new")) "example.com")).take 4950).filter
      (fun x => x.RR = "ddns" ∧ x.Type_ = recordTypeOf false)).length := by
    rw [crowdedZone_listing]
    show 2 ≤ (List.filter (fun x : RecordTypeNew => decide (x.RR = "ddns" ∧ x.Type_ = "A"))
      _).length
    rw [hfil]
    decide
  have hrun := faithful_run_duplicates splitFirstLabel (fun _ _ _ => "") (fun _ => "new") 0
    "ddns" "example.com" "203.0.113.7" false crowdedZone (by decide) hmany
  rw [crowdedZone_listing] at hrun
  refine ⟨?_, ?_, ?_⟩
  · rw [faithfulWithDNS, faithful_ListRecord, crowdedZone_listing]
    show 2 ≤ (List.filter (fun x : RecordTypeNew => decide (x.RR = "ddns" ∧ x.Type_ = "A"))
      _).length
    rw [hfil]
    decide
  · rw [faithfulWithDNS, hrun]
  · rw [faithfulWithDNS, hrun]
    have hany : ∀ x : RecordTypeNew, fillers.any
        (fun r => decide (r.RR = "ddns" ∧ r.RecordId = x.RecordId)) = false := by
      intro x
      rw [List.any_eq_false]
      intro r hr
      simp [(fillers_host r hr).1]
    simp only [recordsFor, withoutListed, crowdedZone, List.filter_append, List.filter_filter,
      List.any_cons, hany, Bool.or_false]
    rw [List.filter_cons, List.filter_cons, List.filter_append,
      fillers_filter_ddns _ (fun x hx => by
        simp only [Bool.and_eq_true, decide_eq_true_eq] at hx
        exact hx.1.2.1)]
    decide
end AliDDNS
